import Mathlib

/-!
# spdm: tagged-value tree

A shallow embedding of the parts of the spdm sources the verified properties are about.

* `sp.EntryImplement` follows `source/EntryMemory.cpp`: the in-memory backend
  `EntryImplement<entry_Memory>`, whose state is the variant `entry_Memory`.
* `sp.EntryPolicy` follows `source/Entry.cpp`: the older backend `entry_in_memory`.
* `sp.Iterator` and `sp.IteratorProxy` follow the classes `Iterator<T>` and
  `IteratorProxy<...>` of `source/Iterator.h`.
* `sp.db.HierarchicalTree` follows `source/db/HierarchicalTree.h`: the node facade
  whose state is the variant `type_union`.
* `sp.db.NodeObject` holds `merge`, `patch`, `diff` and `compare`, to which
  `source/db/NodePlugin.h` forwards.

A C++ member function that can change its object is a function from the state
before the call to a pair: the outcome (a value, or the exception that left the
function) and the state after the call.  A `const` member function returns its
outcome only.
-/

namespace sp

/-- Ways in which a call can leave a function other than by returning: the two
exception classes the sources throw, and undefined behaviour (a null handle is
dereferenced). -/
inductive Exn where
  | runtime_error (msg : String)
  | out_of_range (msg : String)
  | undefined_behaviour (what : String)
  deriving DecidableEq, Repr

/-- Modelled from the spec: `Entry::single_t` is declared in `Entry.h`, which is not
among the sources.  The spec names the scalar kinds Bool, Int, Float and String; a
Float is carried as its bit pattern, which the code stores and returns untouched. -/
inductive single_t where
  | bool (b : Bool)
  | int (i : Int)
  | float (bits : Nat)
  | string (s : String)
  deriving DecidableEq, Repr

/-- Modelled from the spec: `Entry::tensor_t` is declared in `Entry.h`, which is not
among the sources.  The spec describes a Tensor as an element type, a shape and a
data buffer; the element type is kept as the size of one element in bytes. -/
structure tensor_t where
  element_size : Nat
  shape : List Nat
  data : List Nat
  deriving DecidableEq, Repr

/-- Modelled from the spec: `Entry::block_t` is declared in `Entry.h`, which is not
among the sources.  The spec describes a Block as an opaque byte buffer with element
type and shape metadata. -/
structure block_t where
  element_size : Nat
  shape : List Nat
  bytes : List Nat
  deriving DecidableEq, Repr

/-- The variant `entry_Memory` of `EntryMemory.cpp`, lines 9-15: the alternatives
`nullptr_t`, `single_t`, `tensor_t`, `block_t`, `std::vector<Entry>` and
`std::map<std::string, Entry>`, in this order.  An `Entry` stored in a container is
identified with the variant its implementation holds.  The map is the list of its
(key, entry) pairs in iteration order. -/
inductive entry_Memory where
  | Null
  | Single (v : single_t)
  | Tensor (v : tensor_t)
  | Block (v : block_t)
  | Array (m : List entry_Memory)
  | Object (m : List (String × entry_Memory))

/-- An `Entry` of the in-memory backend. -/
abbrev Entry := entry_Memory

/-- The enumeration `Entry::Type`.  `type()` converts the index of the active variant
alternative to it, and `emplace<Entry::Type::Single>` selects the alternative that
holds a `single_t`, so the enumerators number the alternatives of `entry_Memory`. -/
inductive EntryType where
  | Null
  | Single
  | Tensor
  | Block
  | Array
  | Object
  deriving DecidableEq, Repr

/-- Numeric value of an enumerator of `Entry::Type`. -/
def EntryType.index : EntryType → Nat
  | .Null => 0
  | .Single => 1
  | .Tensor => 2
  | .Block => 3
  | .Array => 4
  | .Object => 5

/-- Address of a child slot of an entry: the map node of a key, or the vector element
at a position. -/
inductive Slot where
  | key (name : String)
  | index (i : Nat)
  deriving DecidableEq, Repr

/-- An `Entry::iterator` built from a plain element pointer (`Iterator(pointer p)`,
`Iterator.h` line 252) or default constructed (line 248): it wraps no proxy and its
current element is the pointer, `none` being `nullptr`. -/
abbrev iterator := Option Slot

/-! ## std::map and std::string helpers -/

/-- Lexicographic order on character sequences, the order of `std::string::compare`. -/
def chars_less : List Char → List Char → Bool
  | [], [] => false
  | [], _ :: _ => true
  | _ :: _, [] => false
  | a :: as, b :: bs =>
    if a.toNat < b.toNat then true
    else if b.toNat < a.toNat then false
    else chars_less as bs

/-- The key order `std::less<std::string>` of the map. -/
def key_less (a b : String) : Bool := chars_less a.data b.data

/-- Lookup `std::map::find`: the entry stored under `name`, if any. -/
def map_find {α : Type} (name : String) : List (String × α) → Option α
  | [] => none
  | (k, e) :: rest => if name = k then some e else map_find name rest

/-- Insertion of a pair whose key is absent, at its place in key order. -/
def map_insert_ordered {α : Type} (name : String) (e : α) :
    List (String × α) → List (String × α)
  | [] => [(name, e)]
  | (k, x) :: rest =>
    if key_less name k then (name, e) :: (k, x) :: rest
    else (k, x) :: map_insert_ordered name e rest

/-- The call `std::map::emplace(name, e)`: nothing is inserted when the key is
present. -/
def map_emplace {α : Type} (name : String) (e : α) (m : List (String × α)) :
    List (String × α) :=
  match map_find name m with
  | some _ => m
  | none => map_insert_ordered name e m

/-- Replacement of the entry stored under `name` (a write through a pointer to the
slot); a map without the key is left as it is. -/
def map_assign {α : Type} (name : String) (e : α) : List (String × α) → List (String × α)
  | [] => []
  | (k, x) :: rest =>
    if name = k then (k, e) :: rest else (k, x) :: map_assign name e rest

/-- The call `std::map::erase` of the pair stored under `name`. -/
def map_erase {α : Type} (name : String) : List (String × α) → List (String × α)
  | [] => []
  | (k, x) :: rest => if name = k then rest else (k, x) :: map_erase name rest

namespace EntryImplement

/-- Constructor `EntryImplement(Entry* self, const std::string& name, Entry* parent)`,
lines 17-20: `m_pimpl_(nullptr)`. -/
def create : Entry := entry_Memory.Null

/-- Lines 34-35: `type()` is `Entry::Type(m_pimpl_.index())`. -/
def type : Entry → EntryType
  | .Null => .Null
  | .Single _ => .Single
  | .Tensor _ => .Tensor
  | .Block _ => .Block
  | .Array _ => .Array
  | .Object _ => .Object

/-- Lines 41-52: `set_single`. -/
def set_single (v : single_t) (e : Entry) : Except Exn Unit × Entry :=
  if (type e).index < EntryType.Array.index then
    (.ok (), .Single v)
  else
    (.error (.runtime_error "Set value failed!"), e)

/-- Lines 53-61: `get_single`. -/
def get_single (e : Entry) : Except Exn single_t :=
  match e with
  | .Single v => .ok v
  | _ => .error (.runtime_error "This is not Single!")

/-- Lines 62-73: `set_tensor`. -/
def set_tensor (v : tensor_t) (e : Entry) : Except Exn Unit × Entry :=
  if (type e).index < EntryType.Array.index then
    (.ok (), .Tensor v)
  else
    (.error (.runtime_error "Set value failed!"), e)

/-- Lines 74-82: `get_tensor`. -/
def get_tensor (e : Entry) : Except Exn tensor_t :=
  match e with
  | .Tensor v => .ok v
  | _ => .error (.runtime_error "This is not block!")

/-- Lines 83-94: `set_block`. -/
def set_block (v : block_t) (e : Entry) : Except Exn Unit × Entry :=
  if (type e).index < EntryType.Array.index then
    (.ok (), .Block v)
  else
    (.error (.runtime_error "Set value failed!"), e)

/-- Lines 95-103: `get_block`. -/
def get_block (e : Entry) : Except Exn block_t :=
  match e with
  | .Block v => .ok v
  | _ => .error (.runtime_error "This is not block!")

/-- The entry a handle points at: `*it` for a handle into `e`. -/
def deref (e : Entry) : iterator → Option Entry
  | none => none
  | some (.key name) =>
    match e with
    | .Object m => map_find name m
    | _ => none
  | some (.index i) =>
    match e with
    | .Array m => m.get? i
    | _ => none

/-- Lines 125-141: `find(name)`.  `std::get<Object>` throws `bad_variant_access` on
any other alternative; the exception is caught and the null iterator is returned. -/
def find (name : String) (e : Entry) : iterator :=
  match e with
  | .Object m =>
    match map_find name m with
    | some _ => some (.key name)
    | none => none
  | _ => none

/-- Lines 142-159: `insert(name)`. -/
def insert (name : String) (e : Entry) : iterator × Entry :=
  let e1 : Entry := if type e = EntryType.Null then .Object [] else e
  match e1 with
  | .Object m => (some (.key name), .Object (map_emplace name create m))
  | _ => (none, e1)

/-- Lines 263-280: `push_back()`. -/
def push_back (e : Entry) : iterator × Entry :=
  let e1 : Entry := if type e = EntryType.Null then .Array [] else e
  match e1 with
  | .Array m => (some (.index m.length), .Array (m ++ [create]))
  | _ => (none, e1)

/-- The call `it->set_single(v)` on a handle `it` into `e`: the pointee is changed in
place.  A null handle, or one that points at no slot, is undefined behaviour. -/
def set_single_at (it : iterator) (v : single_t) (e : Entry) : Except Exn Unit × Entry :=
  match it, e with
  | some (.key name), .Object m =>
    match map_find name m with
    | some child =>
      let r := set_single v child
      (r.1, .Object (map_assign name r.2 m))
    | none => (.error (.undefined_behaviour "dangling handle"), e)
  | some (.index i), .Array m =>
    match m.get? i with
    | some child =>
      let r := set_single v child
      (r.1, .Array (m.set i r.2))
    | none => (.error (.undefined_behaviour "dangling handle"), e)
  | some _, _ => (.error (.undefined_behaviour "dangling handle"), e)
  | none, _ => (.error (.undefined_behaviour "null handle"), e)

/-- Lines 311-312: `set_attribute_raw(name, value)` is
`insert("@" + name)->set_single(value)`. -/
def set_attribute_raw (name : String) (value : single_t) (e : Entry) :
    Except Exn Unit × Entry :=
  let r := insert ("@" ++ name) e
  set_single_at r.1 value r.2

/-- Lines 160-179: `erase(name)`.  The stored entry is swapped into a fresh one, the
pair is erased and the entry returned; when the key is absent, or the variant holds no
map (`bad_variant_access` is caught), a fresh entry is returned. -/
def erase (name : String) (e : Entry) : Except Exn Entry × Entry :=
  match e with
  | .Object m =>
    match map_find name m with
    | some x => (.ok x, .Object (map_erase name m))
    | none => (.ok create, e)
  | _ => (.ok create, e)

/-- Lines 188-207: `items()`.  The range from `m.begin()` to `m.end()` over the vector,
given by the addresses of the elements its iteration visits, in order; the empty range
for an entry that is no Array. -/
def items (e : Entry) : List Slot :=
  match e with
  | .Array m => (List.range m.length).map Slot.index
  | _ => []

/-- Lines 208-221: `children()`.  The range from `m.begin()` to `m.end()` over the map,
given by the pairs its iteration visits, in order; the empty range for an entry that
is no Object.  Each of the two iterators is built by the constructor of `Iterator.h`,
lines 254-255, which calls `next()` of the direct proxy once (lines 92-97,
`&(*m_it_)` and `++m_it_`).  On a map without pairs `m.begin()` is `m.end()`, so the
first iterator is built by incrementing the end position of an empty map, which is
undefined behaviour. -/
def children (e : Entry) : Except Exn (List (String × Entry)) :=
  match e with
  | .Object [] =>
    .error (.undefined_behaviour "increment of the end position of an empty map")
  | .Object m => .ok m
  | _ => .ok []

/-- Lines 281-296: `pop_back()`.  `m.rbegin()->swap(res)` on a vector without elements
is undefined behaviour. -/
def pop_back (e : Entry) : Except Exn Entry × Entry :=
  match e with
  | .Array m =>
    match m.getLast? with
    | some x => (.ok x, .Array m.dropLast)
    | none => (.error (.undefined_behaviour "rbegin of an empty vector"), e)
  | _ => (.ok create, e)

/-- Lines 301-310: `get_attribute_raw(name)`. -/
def get_attribute_raw (name : String) (e : Entry) : Except Exn single_t :=
  match find ("@" ++ name) e with
  | none => .error (.out_of_range ("Can not find attribute '" ++ name ++ "'"))
  | some s =>
    match deref e (some s) with
    | some x => get_single x
    | none => .error (.undefined_behaviour "dangling handle")

/-- The test `item.first[0] == '@'` of line 326; the first character of the empty
string is the terminating zero. -/
def starts_with_marker (k : String) : Bool :=
  match k.data with
  | c :: _ => c == '@'
  | [] => false

/-- The call `item.first.substr(1, std::string::npos)` of line 328. -/
def substr_from_1 (k : String) : String := String.mk (k.data.drop 1)

/-- Lines 323-330: the loop of `attributes()` over the pairs of the map, `res` being
the result map built so far; `get_single()` throws on an entry that is no Single. -/
def attributes_loop : List (String × Entry) → List (String × single_t) →
    Except Exn (List (String × single_t))
  | [], res => .ok res
  | (k, x) :: rest, res =>
    if starts_with_marker k then
      match get_single x with
      | .ok v => attributes_loop rest (map_emplace (substr_from_1 k) v res)
      | .error ex => .error ex
    else attributes_loop rest res

/-- Lines 315-332: `attributes()`. -/
def attributes (e : Entry) : Except Exn (List (String × single_t)) :=
  match e with
  | .Object m => attributes_loop m []
  | _ => .ok []

/-- The calls `push_back()` followed by `set_single(v)` on the returned handle, once
for every value of a sequence, in order; the outcome is the list of the handles. -/
def push_back_values : List single_t → Entry → List iterator × Entry
  | [], e => ([], e)
  | v :: vs, e =>
    let r := push_back e
    let r2 := push_back_values vs (set_single_at r.1 v r.2).2
    (r.1 :: r2.1, r2.2)

/-- The call `push_back()` made `n` times in a row; the outcome is the list of the
handles the calls returned. -/
def push_back_times : Nat → Entry → List iterator × Entry
  | 0, e => ([], e)
  | n + 1, e =>
    let r := push_back e
    let r2 := push_back_times n r.2
    (r.1 :: r2.1, r2.2)

/-- Line 300: `has_attribute(name)` is `return !find("@" + name);`.  The iterator that
`find` returns converts to `bool` by `m_current_ != nullptr` (`Iterator.h`, line 284)
and the result is negated. -/
def has_attribute (name : String) (e : Entry) : Bool :=
  !(find ("@" ++ name) e).isSome

/-- Line 314: `remove_attribute(name)` is `erase("@" + name);`, the returned entry
being dropped. -/
def remove_attribute (name : String) (e : Entry) : Except Exn Unit × Entry :=
  ((erase ("@" ++ name) e).1.map (fun _ => ()), (erase ("@" ++ name) e).2)

end EntryImplement

/-- Lines 250-262: `at(int idx)` is `Entry::iterator(&m[idx])`.  `operator[]` of the
vector does not check its index: an index outside the vector is undefined behaviour.
An entry that is no Array gives the null iterator (`bad_variant_access` is caught). -/
def EntryImplement.at (idx : Int) (e : Entry) : Except Exn iterator × Entry :=
  match e with
  | .Array m =>
    if 0 ≤ idx ∧ idx < (m.length : Int) then (.ok (some (.index idx.toNat)), e)
    else (.error (.undefined_behaviour "vector index out of range"), e)
  | _ => (.ok none, e)

/-- The class `Iterator<T>` of `Iterator.h`, lines 235-350: the owned proxy
`m_proxy_` (`none` for the null `unique_ptr`) and the pointer `m_current_` to the
current element (`none` for `nullptr`).  `P` stands for the proxy objects and `A` for
the addresses of elements. -/
structure Iterator (P : Type) (A : Type) where
  m_proxy_ : Option P
  m_current_ : Option A

namespace Iterator

variable {P Q A : Type} [DecidableEq A]

/-- Line 276: `operator==(Iterator const& other)`. -/
def eq (a : Iterator P A) (b : Iterator Q A) : Bool := decide (a.m_current_ = b.m_current_)

/-- Line 278: `operator!=(Iterator const& other)`. -/
def ne (a : Iterator P A) (b : Iterator Q A) : Bool := decide (a.m_current_ ≠ b.m_current_)

/-- Line 280: `operator==(pointer other)`. -/
def eq_pointer (a : Iterator P A) (p : Option A) : Bool := decide (a.m_current_ = p)

/-- Line 282: `operator!=(pointer other)`. -/
def ne_pointer (a : Iterator P A) (p : Option A) : Bool := decide (a.m_current_ ≠ p)

/-- Line 284: `operator bool()`. -/
def to_bool (a : Iterator P A) : Bool := decide (a.m_current_ ≠ none)

end Iterator

/-- Modelled from the spec: the self-consistency of a Tensor value named in its
section 4.1, shape product times element size equals the length of the buffer (the
type `Entry::tensor_t` is not among the sources). -/
def tensor_t.consistent (t : tensor_t) : Bool :=
  t.shape.prod * t.element_size == t.data.length

/-- Modelled from the spec: the self-consistency of a Block value named in its section
4.1, shape product times element size equals the length of the buffer (the type
`Entry::block_t` is not among the sources). -/
def block_t.consistent (b : block_t) : Bool :=
  b.shape.prod * b.element_size == b.bytes.length

mutual

/-- The struct `entry_in_memory` of `Entry.cpp`, lines 7-24: the attribute map
`m_attributes_` and the variant `m_data_`.  An `Entry` held by a `shared_ptr` in a
container is identified with the state of its backend. -/
inductive entry_in_memory where
  | mk (m_attributes_ : List (String × single_t)) (m_data_ : entry_in_memory_data)

/-- The variant `m_data_` of `Entry.cpp`, line 12: `bool`, `int`, `double`,
`std::string`, `entry_array` and `entry_table`, in this order; a `double` is carried
as its bit pattern. -/
inductive entry_in_memory_data where
  | bool (b : Bool)
  | int (i : Int)
  | double (bits : Nat)
  | string (s : String)
  | entry_array (xs : List entry_in_memory)
  | entry_table (m : List (String × entry_in_memory))

end

/-- Index of the active alternative of the variant `m_data_`. -/
def entry_in_memory_data.index : entry_in_memory_data → Nat
  | .bool _ => 0
  | .int _ => 1
  | .double _ => 2
  | .string _ => 3
  | .entry_array _ => 4
  | .entry_table _ => 5

/-- `Entry.cpp`, line 14: the default constructor, `m_data_(false)` and no
attributes. -/
def entry_in_memory.create : entry_in_memory := .mk [] (.bool false)

/-- The variant `m_data_` of an entry. -/
def entry_in_memory.data : entry_in_memory → entry_in_memory_data
  | .mk _ d => d

namespace EntryPolicy

/-- Modelled from the spec: `convert_to(TypeTag::Null)` is a member of a base class
declared in `Entry.h`, which is not among the sources; by the spec a node is created
empty, here the entry the default constructor of `entry_in_memory` makes. -/
def convert_to_Null : entry_in_memory := entry_in_memory.create

/-- `Entry.cpp`, lines 182-196:
`EntryPolicy<entry_in_memory, TypeTag::Array>::push_back(const std::shared_ptr<Entry>& p)`.
`std::get<entry_array>` throws `bad_variant_access` on every other alternative; the
handler replaces `m_data_` by an array that holds the new element. -/
def push_back (p : Option entry_in_memory) (self : entry_in_memory) :
    Except Exn entry_in_memory × entry_in_memory :=
  let e : entry_in_memory :=
    match p with
    | some q => q
    | none => convert_to_Null
  match self with
  | .mk attrs (.entry_array xs) => (.ok e, .mk attrs (.entry_array (xs ++ [e])))
  | .mk attrs _ => (.ok e, .mk attrs (.entry_array [e]))

end EntryPolicy

/-- An element pointer `T*`: `none` is `nullptr`, `some a` is the address `a`,
counted in elements. -/
abbrev pointer := Option Nat

/-- The proxy objects behind the abstract class `IteratorProxy<T>` (`Iterator.h`,
lines 36-61), one constructor for each concrete class the claims are about.

* `direct`: `IteratorProxy<T, IT>` (lines 63-101).  `m_it_` is a position in a
  container; the container is given by the addresses of its elements in iteration
  order, position `container.length` being `end()`.
* `shared`: `IteratorProxy<T, std::shared_ptr<T>>` (lines 103-141).  `m_it_` is the
  address the shared pointer holds, `extent` the number of elements of the allocation
  it owns, `m_pos_` the position.
* `mapped`: `IteratorProxy<T, IT, Mapper>` (lines 143-187).  `m_it_` is a position
  and `m_mapper_` the callable, which may throw.

Every `Iterator` owns its proxy through a `unique_ptr`, and `copy()` and `const_copy()`
allocate a new object, so a proxy is never shared between two iterators and is
identified with its state. -/
inductive IteratorProxy where
  | direct (container : List Nat) (m_it_ : Nat)
  | shared (m_it_ : Option Nat) (extent : Nat) (m_pos_ : Nat)
  | mapped (m_it_ : Nat) (m_mapper_ : Nat → Except Exn pointer)

namespace IteratorProxy

/-- The virtual `copy()`, lines 88, 128 and 163: `new this_type(*this)`; the copy
constructors (lines 80, 120, 157) copy every member. -/
def copy : IteratorProxy → IteratorProxy
  | .direct c i => .direct c i
  | .shared b n k => .shared b n k
  | .mapped i f => .mapped i f

/-- The virtual `const_copy()`, lines 90, 130 and 165.  The direct and the mapped
proxy hand their members to the constructor of the `const` class.  The shared-pointer
proxy calls `IteratorProxy<const T, iterator>(m_it_)`, the constructor of line 118,
which sets `m_pos_(0)`. -/
def const_copy : IteratorProxy → IteratorProxy
  | .direct c i => .direct c i
  | .shared b n _ => .shared b n 0
  | .mapped i f => .mapped i f

/-- The virtual `next()`.

* Lines 92-97 (direct): `p = &(*m_it_); ++m_it_; return p;`.  The proxy holds no
  end position and compares with none; dereferencing `end()` is undefined behaviour.
  A walk over a range ends when the current pointer equals that of the iterator built
  from `end()` (`EntryMemory.cpp`, lines 194-195 and 215-217).
* Lines 132-136 (shared pointer): `++m_pos_; return m_it_.get() + m_pos_ - 1;`.
  Pointer arithmetic is defined up to one element past the allocation and on the null
  pointer only for the offset 0.
* Lines 167-182 (mapped): `p = m_mapper_(m_it_); ++m_it_;` inside `try`; any
  exception is caught and `nullptr` returned, the increment being skipped. -/
def next : IteratorProxy → Except Exn pointer × IteratorProxy
  | .direct c i =>
    match c.get? i with
    | some a => (.ok (some a), .direct c (i + 1))
    | none => (.error (.undefined_behaviour "dereference of the end position"), .direct c i)
  | .shared (some b) n k =>
    if k ≤ n then (.ok (some (b + k)), .shared (some b) n (k + 1))
    else (.error (.undefined_behaviour "pointer past the allocation"), .shared (some b) n k)
  | .shared none n k =>
    if k = 0 then (.ok none, .shared none n 1)
    else (.error (.undefined_behaviour "arithmetic on the null pointer"), .shared none n k)
  | .mapped i f =>
    match f i with
    | .ok p => (.ok p, .mapped (i + 1) f)
    | .error (.undefined_behaviour w) => (.error (.undefined_behaviour w), .mapped i f)
    | .error _ => (.ok none, .mapped i f)

end IteratorProxy

/-- Lines 328-332: `make_iterator_proxy(it, mapper)` is
`new IteratorProxy<value_type, TI, Mapper>(it, mapper)`.

The overload of lines 334-338 for a filter, `make_iterator_proxy(it, filter)`, has no
counterpart here.  It instantiates the same class with
`std::function<bool(const value_type&)>` as `Mapper`; `next()` of that class (line 173)
is `p = m_mapper_(m_it_)`, which assigns the `bool` result of the callable to a
pointer.  C++ has no such conversion, so the overload compiles for no element type and
there is no execution to describe. -/
def make_iterator_proxy_mapper (it : Nat) (mapper : Nat → Except Exn pointer) :
    IteratorProxy :=
  .mapped it mapper

/-- The class `IteratorProxy<U, Iterator<V...>, Mapper>` of lines 189-233: the inner
iterator `m_it_` and the projection `m_mapper_`, which maps an element address and may
throw. -/
structure IteratorProxy_Iterator where
  m_it_ : Iterator IteratorProxy Nat
  m_mapper_ : Nat → Except Exn pointer

/-- Lines 213-228: `next()` of the proxy over an inner iterator.  The body that called
the projection is commented out; what is left is `pointer p = nullptr; return p;`. -/
def IteratorProxy_Iterator.next (p : IteratorProxy_Iterator) :
    Except Exn pointer × IteratorProxy_Iterator :=
  (.ok none, p)

namespace Iterator

/-- Lines 254-255: `Iterator(Args&&... args)` with the proxy that
`make_iterator_proxy(args...)` returned: `m_current_(m_proxy_->next())`. -/
def construct {P A : Type} (pnext : P → Except Exn (Option A) × P) (p : P) :
    Except Exn (Iterator P A) :=
  match pnext p with
  | (.ok cur, p1) => .ok ⟨some p1, cur⟩
  | (.error x, _) => .error x

/-- Line 248: the default constructor, `m_proxy_(nullptr), m_current_(nullptr)`. -/
def default_construct {P A : Type} : Iterator P A := ⟨none, none⟩

/-- Line 252: `Iterator(pointer p)`, `m_proxy_(nullptr), m_current_(p)`.  The handles
that `find`, `insert`, `at` and `push_back` return are built from a pointer to the
entry (`EntryMemory.cpp`, lines 134, 153, 256 and 274), and the null handles by the
default constructor (lines 140, 157, 260 and 278). -/
def pointer_construct {P A : Type} (p : Option A) : Iterator P A := ⟨none, p⟩

/-- Line 257: the copy constructor,
`m_proxy_(other.m_proxy_->copy()), m_current_(other.m_current_)`.  `copy()` is called
through `m_proxy_` without a test; on the null `unique_ptr` this is undefined
behaviour. -/
def copy_construct {P A : Type} (pcopy : P → P) (other : Iterator P A) :
    Except Exn (Iterator P A) :=
  match other.m_proxy_ with
  | some p => .ok ⟨some (pcopy p), other.m_current_⟩
  | none => .error (.undefined_behaviour "null proxy")

/-- Lines 254-255 with lines 340-344: an `Iterator<const T>` built from an
`Iterator<T>`.  `make_iterator_proxy(other)` is `other.m_proxy_->const_copy()` and the
constructor then sets `m_current_(m_proxy_->next())`. -/
def const_construct {P Q A : Type} (pconst_copy : P → Q)
    (qnext : Q → Except Exn (Option A) × Q) (other : Iterator P A) :
    Except Exn (Iterator Q A) :=
  match other.m_proxy_ with
  | some p => construct qnext (pconst_copy p)
  | none => .error (.undefined_behaviour "null proxy")

/-- Lines 254-255 with lines 345-349: the variadic constructor applied to an
`Iterator<T>` of the same element type.  For an argument that is a non-const lvalue,
as in `Iterator c(it);` and in `Iterator res(*this);` of `operator++(int)` (line 300),
overload resolution selects this constructor and not the copy constructor of line 257:
`Args&&` binds as `Iterator&`, an exact match without the added `const`.
`make_iterator_proxy(other)` is `other.m_proxy_->copy()` and the constructor then sets
`m_current_(m_proxy_->next())`. -/
def lvalue_copy_construct {P A : Type} (pcopy : P → P)
    (pnext : P → Except Exn (Option A) × P) (other : Iterator P A) :
    Except Exn (Iterator P A) :=
  match other.m_proxy_ with
  | some p => construct pnext (pcopy p)
  | none => .error (.undefined_behaviour "null proxy")

/-- Lines 270-274: `operator=(Iterator const& other)` is `Iterator(other).swap(*this)`;
the outcome pairs with the iterator assigned to, after the call. -/
def assign {P A : Type} (pcopy : P → P) (self other : Iterator P A) :
    Except Exn Unit × Iterator P A :=
  match copy_construct pcopy other with
  | .ok c => (.ok (), c)
  | .error x => (.error x, self)

/-- Lines 286-290: `next()` is
`m_current_ = m_proxy_ == nullptr ? nullptr : m_proxy_->next(); return m_current_;`. -/
def next {P A : Type} (pnext : P → Except Exn (Option A) × P) (it : Iterator P A) :
    Except Exn (Option A) × Iterator P A :=
  match it.m_proxy_ with
  | none => (.ok none, ⟨none, none⟩)
  | some p =>
    match pnext p with
    | (.ok cur, p1) => (.ok cur, ⟨some p1, cur⟩)
    | (.error x, p1) => (.error x, ⟨some p1, it.m_current_⟩)

/-- The results of `n` calls of `next()` in a row, and the iterator after them. -/
def nexts {P A : Type} (pnext : P → Except Exn (Option A) × P) :
    Nat → Iterator P A → List (Except Exn (Option A)) × Iterator P A
  | 0, it => ([], it)
  | n + 1, it =>
    let r := next pnext it
    let r2 := nexts pnext n r.2
    (r.1 :: r2.1, r2.2)

end Iterator

namespace db

/-- Modelled from the spec: the parameter pack `TypeList...` of `HierarchicalTree` is
fixed in `Node.h`, which is not among the sources.  The spec lists the leaf variants
Bool, Int, Float, String, Tensor and Block. -/
inductive Element where
  | Bool (b : Bool)
  | Int (i : Int)
  | Float (bits : Nat)
  | String (s : String)
  | Tensor (t : tensor_t)
  | Block (b : block_t)
  deriving DecidableEq, Repr

/-- Position of a leaf type within `TypeList...`. -/
def Element.position : Element → Nat
  | .Bool _ => 0
  | .Int _ => 1
  | .Float _ => 2
  | .String _ => 3
  | .Tensor _ => 4
  | .Block _ => 5

/-- The variant `type_union` of `HierarchicalTree.h`, lines 49-54:
`std::nullptr_t`, `HTContainerProxyObject`, `HTContainerProxyArray`, `TypeList...`.
It is the member `m_data_`, the only member a member function assigns to: `m_name_`
and `m_parent_` are set by the constructors alone.  A container proxy is identified
with the children its container owns. -/
inductive type_union where
  | Empty
  | Object (children : List (String × type_union))
  | Array (children : List type_union)
  | Element (v : Element)

/-- The tags `type_tags::Empty`, `type_tags::Object` and `type_tags::Array`: the
indices of the first three alternatives of `type_union`. -/
def type_tags.Empty : Nat := 0

/-- Index of the alternative `HTContainerProxyObject`. -/
def type_tags.Object : Nat := 1

/-- Index of the alternative `HTContainerProxyArray`. -/
def type_tags.Array : Nat := 2

/-- Modelled from the spec: `Path` is declared in `utility/Path.h`, which is not among
the sources.  A path is a sequence of segments; of the four segment kinds of the spec
the two whose resolution it defines are kept, `Key` and `Index`. -/
inductive Segment where
  | Key (name : String)
  | Index (i : Int)
  deriving DecidableEq, Repr

/-- Modelled from the spec: a `Path` (`utility/Path.h`, not among the sources) as the
ordered sequence of its segments. -/
abbrev Path := List Segment

/-- A `Cursor<node_type>` that addresses one node (`Cursor.h` is not among the
sources): the chain of child slots that leads from the node the call was made on to
the addressed node, or `none` for the cursor that addresses nothing. -/
abbrev cursor := Option (List Slot)

/-- Splitting of a character sequence at every `/`. -/
def split_slash : List Char → List Char → List (List Char)
  | [], acc => [acc.reverse]
  | c :: cs, acc =>
    if c = '/' then acc.reverse :: split_slash cs [] else split_slash cs (c :: acc)

/-- Value of a sequence of decimal digits. -/
def digits_value (cs : List Char) : Nat :=
  cs.foldl (fun acc c => acc * 10 + (c.toNat - 48)) 0

/-- Whether a segment is purely numeric. -/
def all_digits (cs : List Char) : Bool :=
  !cs.isEmpty && cs.all Char.isDigit

/-- Modelled from the spec: the path string syntax of its section 6 (the parser lives
in `utility/Path.h`, not among the sources).  A purely numeric segment addresses an
Array index, `-1` is an index too, every other segment is a key. -/
def parse_segment (cs : List Char) : Segment :=
  if all_digits cs then .Index (digits_value cs)
  else match cs with
    | '-' :: ds => if all_digits ds then .Index (-(digits_value ds : Int)) else .Key (String.mk cs)
    | _ => .Key (String.mk cs)

/-- Modelled from the spec: conversion of a slash-delimited string into a `Path`
(`utility/Path.h` is not among the sources); empty segments, such as the one before a
leading slash, address nothing and are dropped. -/
def parse_path (s : String) : Path :=
  ((split_slash s.data []).filter (fun cs => !cs.isEmpty)).map parse_segment

/-- Storing of `e` under `name`: replacement when the key is present, insertion
otherwise. -/
def map_put (name : String) (e : type_union) (m : List (String × type_union)) :
    List (String × type_union) :=
  match map_find name m with
  | some _ => map_assign name e m
  | none => map_insert_ordered name e m

/-- Modelled from the spec: write-mode path resolution of its section 4.2 (the
containers behind `HTContainerProxyObject` and `HTContainerProxyArray` are not among
the sources).  A `Key` needs a node that is an Object or still empty, a missing key is
created; an `Index` needs a node that is an Array or still empty, an index in range
addresses its slot, `-1` or the index one past the last element appends; a segment
against any other node is a type mismatch, reported as a `runtime_error`.  The result
is the chain of slots to the target and the node after the walk. -/
def resolve_write : Path → type_union → Except Exn (List Slot × type_union)
  | [], n => .ok ([], n)
  | .Key name :: rest, n =>
    match n with
    | .Empty =>
      match resolve_write rest .Empty with
      | .ok (addr, child) => .ok (.key name :: addr, .Object [(name, child)])
      | .error x => .error x
    | .Object m =>
      match resolve_write rest ((map_find name m).getD .Empty) with
      | .ok (addr, child) => .ok (.key name :: addr, .Object (map_put name child m))
      | .error x => .error x
    | _ => .error (.runtime_error "TypeMismatch")
  | .Index i :: rest, n =>
    match n with
    | .Empty =>
      if i = 0 ∨ i = -1 then
        match resolve_write rest .Empty with
        | .ok (addr, child) => .ok (.index 0 :: addr, .Array [child])
        | .error x => .error x
      else .error (.out_of_range "OutOfRange")
    | .Array m =>
      if i = -1 ∨ i = (m.length : Int) then
        match resolve_write rest .Empty with
        | .ok (addr, child) => .ok (.index m.length :: addr, .Array (m ++ [child]))
        | .error x => .error x
      else if 0 ≤ i ∧ i < (m.length : Int) then
        match resolve_write rest (m.getD i.toNat .Empty) with
        | .ok (addr, child) => .ok (.index i.toNat :: addr, .Array (m.set i.toNat child))
        | .error x => .error x
      else .error (.out_of_range "OutOfRange")
    | _ => .error (.runtime_error "TypeMismatch")

/-- Modelled from the spec: read-mode path resolution of its section 4.2 (the
containers are not among the sources).  Nothing is created: a missing key resolves to
the cursor that addresses nothing, an index outside the array is out of range, a
segment against a node of an incompatible tag is a type mismatch. -/
def resolve_read : Path → type_union → Except Exn cursor
  | [], _ => .ok (some [])
  | .Key name :: rest, n =>
    match n with
    | .Empty => .ok none
    | .Object m =>
      match map_find name m with
      | none => .ok none
      | some child =>
        match resolve_read rest child with
        | .ok (some addr) => .ok (some (.key name :: addr))
        | .ok none => .ok none
        | .error x => .error x
    | _ => .error (.runtime_error "TypeMismatch")
  | .Index i :: rest, n =>
    match n with
    | .Empty => .error (.out_of_range "OutOfRange")
    | .Array m =>
      if 0 ≤ i ∧ i < (m.length : Int) then
        match resolve_read rest (m.getD i.toNat .Empty) with
        | .ok (some addr) => .ok (some (.index i.toNat :: addr))
        | .ok none => .ok none
        | .error x => .error x
      else .error (.out_of_range "OutOfRange")
    | _ => .error (.runtime_error "TypeMismatch")

/-- The node a chain of slots leads to. -/
def node_at : List Slot → type_union → Option type_union
  | [], n => some n
  | .key name :: rest, .Object m =>
    match map_find name m with
    | some child => node_at rest child
    | none => none
  | .index i :: rest, .Array m =>
    match m.get? i with
    | some child => node_at rest child
    | none => none
  | _ :: _, _ => none

/-- Replacement of the node a chain of slots leads to by its image under `f`; a chain
that leads nowhere changes nothing. -/
def modify_at (f : type_union → type_union) : List Slot → type_union → type_union
  | [], n => f n
  | .key name :: rest, .Object m =>
    match map_find name m with
    | some child => .Object (map_assign name (modify_at f rest child) m)
    | none => .Object m
  | .index i :: rest, .Array m =>
    match m.get? i with
    | some child => .Array (m.set i (modify_at f rest child))
    | none => .Array m
  | _ :: _, n => n

namespace HTContainerProxyObject

/-- Modelled from the spec: `HTContainerProxyObject::size` (declared at line 301, its
container is not among the sources). -/
def size (m : List (String × type_union)) : Nat := m.length

/-- Modelled from the spec: `HTContainerProxyObject::clear` (declared at line 303). -/
def clear (_m : List (String × type_union)) : List (String × type_union) := []

/-- Modelled from the spec: `HTContainerProxyObject::insert(path)` (declared at lines
307-309; `Node.cpp` lines 103-109 forward it to a container that is not among the
sources): create-on-write resolution from the Object that owns the container. -/
def insert (path : Path) (m : List (String × type_union)) :
    Except Exn cursor × List (String × type_union) :=
  match resolve_write path (.Object m) with
  | .ok (addr, .Object m1) => (.ok (some addr), m1)
  | .ok (addr, _) => (.ok (some addr), m)
  | .error x => (.error x, m)

/-- Modelled from the spec: `HTContainerProxyObject::find(path)` (declared at lines
315-321; `Node.cpp` lines 117-131 forward it to a container that is not among the
sources): read-mode resolution, which leaves the container as it is. -/
def find (path : Path) (m : List (String × type_union)) : Except Exn cursor :=
  resolve_read path (.Object m)

/-- Modelled from the spec: `HTContainerProxyObject::erase(key)` (declared at line
311; `Node.cpp` line 112 forwards it to a container that is not among the sources):
the child stored under the key is removed, an absent key is NotFound, reported as an
`out_of_range`. -/
def erase (key : String) (m : List (String × type_union)) :
    Except Exn Unit × List (String × type_union) :=
  match map_find key m with
  | some _ => (.ok (), map_erase key m)
  | none => (.error (.out_of_range "NotFound"), m)

end HTContainerProxyObject

namespace HTContainerProxyArray

/-- Modelled from the spec: `HTContainerProxyArray::size` (declared at line 351, its
container is not among the sources). -/
def size (m : List type_union) : Nat := m.length

/-- Modelled from the spec: `HTContainerProxyArray::clear` (declared at line 355). -/
def clear (_m : List type_union) : List type_union := []

/-- Modelled from the spec: `HTContainerProxyArray::push_back()` (declared at line
357; `Node.cpp` lines 154-156 forward it to a container that is not among the
sources): a new empty node is appended and a cursor to it returned. -/
def push_back (m : List type_union) : cursor × List type_union :=
  (some [.index m.length], m ++ [.Empty])

end HTContainerProxyArray

/-- `Node.cpp` lines 161-163: the non-const `at(int idx)` of the Array container of
`Node` is `return Node();`, a new empty node whatever the index; the container is not
touched. -/
def HTContainerProxyArray.at (_idx : Int) (_m : List type_union) : type_union := .Empty

namespace HierarchicalTree

/-- Line 58: the constructor sets `m_data_(nullptr)`. -/
def create : type_union := .Empty

/-- Line 80: `type()` is `m_data_.index()`. -/
def type : type_union → Nat
  | .Empty => 0
  | .Object _ => 1
  | .Array _ => 2
  | .Element v => 3 + v.position

/-- Line 86: `empty()`. -/
def empty (n : type_union) : Bool := type n == type_tags.Empty

/-- Line 84: `is_leaf()`. -/
def is_leaf (n : type_union) : Bool := type n != type_tags.Object && type n != type_tags.Array

/-- Line 91: `is_element()`. -/
def is_element (n : type_union) : Bool := decide (type n > type_tags.Array)

/-- Lines 103-104: `set_value<V>(args...)` is `m_data_.emplace<V>(args...)`. -/
def set_value (v : Element) (_n : type_union) : Except Exn Unit × type_union :=
  (.ok (), .Element v)

/-- Lines 96-101: `operator=(const V& v)` calls `set_value<V>(v)`. -/
def assign (v : Element) (n : type_union) : Except Exn Unit × type_union :=
  set_value v n

/-- Lines 124-134: `clear()`. -/
def clear (n : type_union) : Except Exn Unit × type_union :=
  match n with
  | .Array m => (.ok (), .Array (HTContainerProxyArray.clear m))
  | .Object m => (.ok (), .Object (HTContainerProxyObject.clear m))
  | _ => (.ok (), n)

/-- Lines 136-150: `size()`. -/
def size (n : type_union) : Nat :=
  match n with
  | .Array m => HTContainerProxyArray.size m
  | .Object m => HTContainerProxyObject.size m
  | _ => 0

/-- Lines 157-171: the non-const `as_object()`.  An empty node is first made an
Object; the outcome is the container of the node, or the `runtime_error` thrown when
the node is no Object. -/
def as_object (n : type_union) : Except Exn (List (String × type_union)) × type_union :=
  let n1 : type_union := if type n = type_tags.Empty then .Object [] else n
  match n1 with
  | .Object m => (.ok m, n1)
  | _ => (.error (.runtime_error ""), n1)

/-- Lines 221-234: the non-const `as_array()`. -/
def as_array (n : type_union) : Except Exn (List type_union) × type_union :=
  let n1 : type_union := if type n = type_tags.Empty then .Array [] else n
  match n1 with
  | .Array m => (.ok m, n1)
  | _ => (.error (.runtime_error ""), n1)

/-- Line 204: `insert(const Path& path)` is `as_object().insert(path)`. -/
def insert (path : Path) (n : type_union) : Except Exn cursor × type_union :=
  match as_object n with
  | (.ok m, _) =>
    let r := HTContainerProxyObject.insert path m
    (r.1, .Object r.2)
  | (.error x, n1) => (.error x, n1)

/-- Line 202: `insert(const std::string& path)` is `as_object().insert(path)`. -/
def insert_string (path : String) (n : type_union) : Except Exn cursor × type_union :=
  match as_object n with
  | (.ok m, _) =>
    let r := HTContainerProxyObject.insert (parse_path path) m
    (r.1, .Object r.2)
  | (.error x, n1) => (.error x, n1)

/-- Line 208: `find(const Path& path)` is `as_object().find(path)`, with the
non-const `as_object()`. -/
def find (path : Path) (n : type_union) : Except Exn cursor × type_union :=
  match as_object n with
  | (.ok m, n1) => (HTContainerProxyObject.find path m, n1)
  | (.error x, n1) => (.error x, n1)

/-- Line 206: `find(const std::string& path)` is `as_object().insert(path)`. -/
def find_string (path : String) (n : type_union) : Except Exn cursor × type_union :=
  match as_object n with
  | (.ok m, _) =>
    let r := HTContainerProxyObject.insert (parse_path path) m
    (r.1, .Object r.2)
  | (.error x, n1) => (.error x, n1)

/-- Line 247: `push_back()` is `as_array().emplace_back()`.  `as_array()` is
evaluated first and decides whether the container is reached.  The class
`HTContainerProxyArray` (lines 328-368) declares `push_back()` (line 357) and no member
`emplace_back`, so what the call on the container does is the parameter
`emplace_back`. -/
def push_back (emplace_back : List type_union → cursor × List type_union)
    (n : type_union) : Except Exn cursor × type_union :=
  match as_array n with
  | (.ok m, _) =>
    let r := emplace_back m
    (.ok r.1, .Array r.2)
  | (.error x, n1) => (.error x, n1)

/-- Lines 189-195: `erase(const std::string& key)`. -/
def erase (key : String) (n : type_union) : Except Exn Unit × type_union :=
  match n with
  | .Object m =>
    let r := HTContainerProxyObject.erase key m
    (r.1, .Object r.2)
  | _ => (.ok (), n)

/-- Line 251: the non-const `operator[](int idx)` is `as_array().at(idx)`. -/
def subscript (idx : Int) (n : type_union) : Except Exn type_union × type_union :=
  match as_array n with
  | (.ok m, n1) => (.ok (HTContainerProxyArray.at idx m), n1)
  | (.error x, n1) => (.error x, n1)

/-- The node a cursor addresses, `*c` for a cursor into `n`. -/
def deref (n : type_union) : cursor → Option type_union
  | none => none
  | some addr => node_at addr n

/-- The assignment `*c = v` through a cursor into `n` (lines 96-101 applied to the
addressed node). -/
def assign_at (c : cursor) (v : Element) (n : type_union) : type_union :=
  match c with
  | none => n
  | some addr => modify_at (fun x => (assign v x).2) addr n

end HierarchicalTree

/-- What a pointer `node_type*` to a node leads to, as far as `path()` reads it: the
members `m_parent_` and `m_name_` of the node pointed at (`HierarchicalTree.h`, lines
272-273), `none` being `nullptr`.  The two members are set by the constructors alone
and a node is constructed with a pointer to a node that is already there, so the chain
of parents is a finite value. -/
inductive node_pointer where
  | mk (m_parent_ : Option node_pointer) (m_name_ : String)

/-- Line 76, `path()`, as evaluated through a pointer to the node:
`m_parent_ == nullptr ? m_name_ : m_parent_->path() + "/" + m_name_`. -/
def node_pointer.path : node_pointer → String
  | .mk none name => name
  | .mk (some p) name => p.path ++ "/" ++ name

/-- An object of the class `HierarchicalTree` with its three members (lines
272-274). -/
structure Node where
  m_parent_ : Option node_pointer
  m_name_ : String
  m_data_ : type_union

/-- The pointer `this` of a node. -/
def Node.this (n : Node) : node_pointer := .mk n.m_parent_ n.m_name_

namespace HierarchicalTree

/-- Line 58: `HierarchicalTree(node_type* p = nullptr, const std::string& name = "")`
sets `m_name_(name), m_parent_(p), m_data_(nullptr)`. -/
def construct (p : Option node_pointer) (name : String) : Node := ⟨p, name, .Empty⟩

/-- Line 60: the copy constructor sets
`m_parent_(nullptr), m_name_(""), m_data_(other.m_data_)`. -/
def copy_construct (other : Node) : Node := ⟨none, "", other.m_data_⟩

/-- Line 66: `swap(this_type& other)` is `m_data_.swap(other.m_data_)`; the outcome
is the pair of the node the call was made on and `other`, after the call. -/
def swap (self other : Node) : Node × Node :=
  ({ self with m_data_ := other.m_data_ }, { other with m_data_ := self.m_data_ })

/-- Lines 68-72: `operator=(this_type const& other)` is
`type_union(other.m_data_).swap(m_data_)`. -/
def assign_node (self other : Node) : Node := { self with m_data_ := other.m_data_ }

/-- Line 74: `parent()`. -/
def parent (n : Node) : Option node_pointer := n.m_parent_

/-- Line 76: `path()`. -/
def path (n : Node) : String :=
  match n.m_parent_ with
  | none => n.m_name_
  | some p => p.path ++ "/" ++ n.m_name_

/-- Line 78: `name()`. -/
def name (n : Node) : String := n.m_name_

/-- Line 82: `is_root()`. -/
def is_root (n : Node) : Bool := n.m_parent_.isNone

/-- The node reached from `root` through descendants of the given names.  A node
hands the pointer `this` to its container (lines 163 and 227), and a descendant is
constructed (line 58) with the pointer to the node before it as its parent and with
its own name. -/
def descendant (root : Node) (names : List String) : Node :=
  names.foldl (fun p n => construct (some p.this) n) root

end HierarchicalTree

namespace NodeObject

/-! `NodePlugin.h`, lines 93-101, forwards `merge`, `patch`, `compare` and `diff` to the
base class `NodeObject`, whose definitions are not among the sources. -/

mutual

/-- Modelled from the spec: `NodeObject::compare` (not among the sources), the deep
structural equality of its section 4.5: matching tags and recursively equal contents,
an Array element by element in order, an Object by its key set and the equality of
the values key by key. -/
def compare : type_union → type_union → Bool
  | .Empty, .Empty => true
  | .Element v, .Element w => decide (v = w)
  | .Array a, .Array b => compare_list a b
  | .Object a, .Object b =>
    compare_children a b && b.all (fun p => (map_find p.1 a).isSome)
  | _, _ => false

/-- Modelled from the spec: the part of `NodeObject::compare` for two Arrays, element
by element in order. -/
def compare_list : List type_union → List type_union → Bool
  | [], [] => true
  | x :: xs, y :: ys => compare x y && compare_list xs ys
  | _, _ => false

/-- Modelled from the spec: the part of `NodeObject::compare` for two Objects, every
pair of the first has an equal value under its key in the second. -/
def compare_children : List (String × type_union) → List (String × type_union) → Bool
  | [], _ => true
  | (k, v) :: rest, b =>
    (match map_find k b with
     | some w => compare v w
     | none => false) && compare_children rest b

end

mutual

/-- Modelled from the spec: `NodeObject::merge` (not among the sources), the recursive
union of its section 4.5: for two Objects the union of the keys, a key present in both
recursing; for two Arrays the concatenation; every other conflict resolves to the
value of `other`. -/
def merge : type_union → type_union → type_union
  | .Object a, .Object b =>
    .Object (merge_children a b ++ b.filter (fun p => (map_find p.1 a).isNone))
  | .Array a, .Array b => .Array (a ++ b)
  | _, y => y

/-- Modelled from the spec: the part of `NodeObject::merge` over the keys of `self`,
a key that `other` holds too recursing. -/
def merge_children : List (String × type_union) → List (String × type_union) →
    List (String × type_union)
  | [], _ => []
  | (k, v) :: rest, b =>
    (k, match map_find k b with
        | some w => merge v w
        | none => v) :: merge_children rest b

end

mutual

/-- Modelled from the spec: `NodeObject::patch` (not among the sources), the
merge-patch of its section 4.5: for each key of `other` a Null value removes the key
from `self`, any other value patches recursively (Object into Object) or overwrites;
an `other` that is no Object replaces `self`. -/
def patch : type_union → type_union → type_union
  | .Object a, .Object p => .Object (patch_children a p)
  | _, y => y

/-- Modelled from the spec: the loop of `NodeObject::patch` over the pairs of `other`,
the first argument being the children of `self` as patched so far. -/
def patch_children : List (String × type_union) → List (String × type_union) →
    List (String × type_union)
  | a, [] => a
  | a, (k, w) :: rest =>
    match w with
    | .Empty => patch_children (map_erase k a) rest
    | _ =>
      patch_children
        (map_put k (match map_find k a with
                    | some v => patch v w
                    | none => w) a) rest

end

/-- Modelled from the spec: what one pair `(key, w)` of a patch leaves under its key,
`old` being the value the key had: nothing when `w` is Null, else the patched or the
new value. -/
def patch_value (old : Option type_union) (w : type_union) : Option type_union :=
  match w with
  | .Empty => none
  | _ =>
    some (match old with
          | some v => patch v w
          | none => w)

mutual

/-- Modelled from the spec: `NodeObject::diff` (not among the sources), the smallest
patch of its section 4.5: a key of `other` that `self` lacks carries the value of
`other`, a key whose values are deeply equal is left out, a key that differs carries
the diff of the two values, and a key of `self` that `other` lacks carries Null; for
values that are not both Objects the patch is `other`. -/
def diff : type_union → type_union → type_union
  | .Object a, .Object b =>
    .Object (diff_children a b
      ++ (a.filter (fun p => (map_find p.1 b).isNone)).map (fun p => (p.1, .Empty)))
  | _, y => y

/-- Modelled from the spec: the part of `NodeObject::diff` over the pairs of
`other`. -/
def diff_children : List (String × type_union) → List (String × type_union) →
    List (String × type_union)
  | _, [] => []
  | a, (k, w) :: rest =>
    (match map_find k a with
     | none => [(k, w)]
     | some v => if compare v w then [] else [(k, diff v w)]) ++ diff_children a rest

end

mutual

/-- The invariant of the Object container, keys are unique within one Object (the
first invariant of the data model), at every depth of a value. -/
def unique_keys : type_union → Bool
  | .Object m => decide ((m.map Prod.fst).Nodup) && unique_keys_children m
  | .Array xs => unique_keys_list xs
  | _ => true

/-- Unique keys in every element of an Array. -/
def unique_keys_list : List type_union → Bool
  | [] => true
  | x :: xs => unique_keys x && unique_keys_list xs

/-- Unique keys in every value of an Object. -/
def unique_keys_children : List (String × type_union) → Bool
  | [] => true
  | (_, v) :: rest => unique_keys v && unique_keys_children rest

end

mutual

/-- The value holds Null under no key, neither itself nor in an Object nested under
keys of Objects.  An Array is not looked into: `patch` and `diff` take an Array as a
whole, like a scalar. -/
def no_null_value : type_union → Bool
  | .Object m => no_null_value_children m
  | _ => true

/-- No value of the Object is Null and none holds a Null-valued key in that sense. -/
def no_null_value_children : List (String × type_union) → Bool
  | [] => true
  | (_, v) :: rest =>
    (match v with
     | .Empty => false
     | _ => no_null_value v) && no_null_value_children rest

end

mutual

/-- Every Array of the value, at any depth, is without elements. -/
def no_array_element : type_union → Bool
  | .Object m => no_array_element_children m
  | .Array xs => xs.isEmpty
  | _ => true

/-- Every Array in the values of an Object is without elements. -/
def no_array_element_children : List (String × type_union) → Bool
  | [] => true
  | (_, v) :: rest => no_array_element v && no_array_element_children rest

end

end NodeObject

end db

end sp

namespace sp

open EntryImplement

/-! ## Theorems -/

/-- C1: on a freshly constructed in-memory entry, `set_single(v)` succeeds, after it
`get_single()` returns `v` and `type()` is `Single`, and `get_tensor()` throws. -/
theorem C1_set_single_get_single (v : single_t) :
    (set_single v create).1 = .ok () ∧
    get_single (set_single v create).2 = .ok v ∧
    type (set_single v create).2 = EntryType.Single ∧
    get_tensor (set_single v create).2 = .error (.runtime_error "This is not block!") := by
  refine ⟨rfl, rfl, rfl, rfl⟩

/-! ### Lemmas on the map helpers -/

theorem map_find_insert_ordered_self {α : Type} (k : String) (e : α)
    (m : List (String × α)) (h : map_find k m = none) :
    map_find k (map_insert_ordered k e m) = some e := by
  induction m with
  | nil => simp [map_insert_ordered, map_find]
  | cons p rest ih =>
    obtain ⟨k1, x⟩ := p
    by_cases hk : k = k1
    · simp [map_find, hk] at h
    · simp only [map_find, hk, if_false] at h
      by_cases hl : key_less k k1 = true
      · simp [map_insert_ordered, hl, map_find]
      · simp [map_insert_ordered, hl, map_find, hk, ih h]

theorem map_find_insert_ordered_other {α : Type} (k k2 : String) (e : α)
    (m : List (String × α)) (h : k2 ≠ k) :
    map_find k2 (map_insert_ordered k e m) = map_find k2 m := by
  induction m with
  | nil => simp [map_insert_ordered, map_find, h]
  | cons p rest ih =>
    obtain ⟨k1, x⟩ := p
    by_cases hl : key_less k k1 = true
    · simp [map_insert_ordered, hl, map_find, h]
    · simp [map_insert_ordered, hl, map_find, ih]

theorem map_emplace_present {α : Type} (k : String) (e x : α) (m : List (String × α))
    (h : map_find k m = some x) : map_emplace k e m = m := by
  simp [map_emplace, h]

theorem map_find_emplace_absent {α : Type} (k : String) (e : α) (m : List (String × α))
    (h : map_find k m = none) : map_find k (map_emplace k e m) = some e := by
  simp [map_emplace, h, map_find_insert_ordered_self]

theorem map_find_emplace_other {α : Type} (k k2 : String) (e : α) (m : List (String × α))
    (h : k2 ≠ k) : map_find k2 (map_emplace k e m) = map_find k2 m := by
  unfold map_emplace
  cases hm : map_find k m with
  | some _ => rfl
  | none => exact map_find_insert_ordered_other k k2 e m h

/-! ### Evaluation of the in-memory operations -/

theorem insert_Null_eq (k : String) :
    EntryImplement.insert k .Null = (some (.key k), .Object [(k, create)]) := rfl

theorem insert_Object_eq (k : String) (m : List (String × entry_Memory)) :
    EntryImplement.insert k (.Object m) = (some (.key k), .Object (map_emplace k create m)) :=
  rfl

theorem find_Object_eq (k : String) (m : List (String × entry_Memory)) :
    EntryImplement.find k (.Object m)
      = (match map_find k m with
         | some _ => some (.key k)
         | none => none) := rfl

theorem deref_key_Object (k : String) (m : List (String × entry_Memory)) :
    deref (.Object m) (some (.key k)) = map_find k m := rfl

theorem set_attribute_raw_Null (name : String) (v : single_t) :
    set_attribute_raw name v .Null = (.ok (), .Object [("@" ++ name, .Single v)]) := by
  simp [set_attribute_raw, insert_Null_eq, set_single_at, map_find, set_single, create,
    type, EntryType.index, map_assign]

open db

/-! ### Path round trip on the node facade -/

/-- C2: from an empty root, `insert("/a/b/c")` followed by the assignment of `v`
through the returned cursor gives a tree on which `find("/a/b/c")` addresses a node
holding `v`, and `find("/a")` and `find("/a/b")` address nodes whose tag is Object;
this holds for the string overload and the `Path` overload of `find`, and neither
changes the tree.  A root that is already an empty Object behaves as the empty root. -/
theorem C2_insert_find_round_trip (v : Element) :
    (HierarchicalTree.insert_string "/a/b/c" HierarchicalTree.create).1
      = .ok (some [.key "a", .key "b", .key "c"]) ∧
    HierarchicalTree.insert_string "/a/b/c" (.Object [])
      = HierarchicalTree.insert_string "/a/b/c" HierarchicalTree.create ∧
    (let n := HierarchicalTree.assign_at (some [.key "a", .key "b", .key "c"]) v
        (HierarchicalTree.insert_string "/a/b/c" HierarchicalTree.create).2
     HierarchicalTree.find_string "/a/b/c" n = (.ok (some [.key "a", .key "b", .key "c"]), n) ∧
     HierarchicalTree.find (parse_path "/a/b/c") n
        = (.ok (some [.key "a", .key "b", .key "c"]), n) ∧
     HierarchicalTree.deref n (some [.key "a", .key "b", .key "c"]) = some (.Element v) ∧
     HierarchicalTree.find_string "/a" n = (.ok (some [.key "a"]), n) ∧
     HierarchicalTree.find (parse_path "/a") n = (.ok (some [.key "a"]), n) ∧
     (HierarchicalTree.deref n (some [.key "a"])).map HierarchicalTree.type
        = some type_tags.Object ∧
     HierarchicalTree.find_string "/a/b" n = (.ok (some [.key "a", .key "b"]), n) ∧
     HierarchicalTree.find (parse_path "/a/b") n = (.ok (some [.key "a", .key "b"]), n) ∧
     (HierarchicalTree.deref n (some [.key "a", .key "b"])).map HierarchicalTree.type
        = some type_tags.Object) := by
  refine ⟨rfl, rfl, rfl, rfl, rfl, rfl, rfl, rfl, rfl, rfl, rfl⟩

/-- C3 (the code at the failing inputs): on an Object node without the key `x`, the
string overload of `find` returns a cursor to a newly created child and the node has
one child more; on an empty node the `Path` overload returns the cursor that addresses
nothing but leaves the node an Object. -/
theorem C3_find_changes_node :
    HierarchicalTree.find_string "x" (.Object [])
      = (.ok (some [.key "x"]), .Object [("x", .Empty)]) ∧
    HierarchicalTree.size (.Object []) = 0 ∧
    HierarchicalTree.size (HierarchicalTree.find_string "x" (.Object [])).2 = 1 ∧
    HierarchicalTree.find [.Key "x"] .Empty = (.ok none, .Object []) ∧
    HierarchicalTree.type .Empty = type_tags.Empty ∧
    HierarchicalTree.type (HierarchicalTree.find [.Key "x"] .Empty).2 = type_tags.Object := by
  refine ⟨rfl, rfl, rfl, rfl, rfl, rfl⟩

/-! ### The in-memory entry -/

/-- C4: on an entry whose tag is Null or Object, `insert(k)` returns the handle of the
slot of `k`.  When `k` was present the entry is unchanged and the handle points at the
entry that was stored; otherwise the handle points at a new Null entry and every other
key keeps its entry.  A second `insert(k)` returns the same handle and state, and
`find(k)` afterwards returns the same handle. -/
theorem C4_insert_create_or_get (e : Entry) (k : String)
    (h : type e = EntryType.Null ∨ type e = EntryType.Object) :
    (insert k e).1 = some (.key k) ∧
    (∀ x, deref e (some (.key k)) = some x →
      (insert k e).2 = e ∧ deref (insert k e).2 (insert k e).1 = some x) ∧
    (deref e (some (.key k)) = none →
      deref (insert k e).2 (insert k e).1 = some create ∧
      ∀ k2, k2 ≠ k →
        deref (insert k e).2 (some (.key k2)) = deref e (some (.key k2))) ∧
    insert k (insert k e).2 = insert k e ∧
    find k (insert k e).2 = (insert k e).1 := by
  cases e with
  | Null =>
    simp only [insert_Null_eq, deref_key_Object, find_Object_eq]
    refine ⟨trivial, ?_, ?_, ?_, ?_⟩
    · intro x hx
      simp [deref] at hx
    · intro _
      refine ⟨by simp [map_find], ?_⟩
      intro k2 hk2
      simp [deref, map_find, hk2]
    · simp [insert_Object_eq, map_emplace, map_find]
    · simp [map_find]
  | Object m =>
    simp only [insert_Object_eq, deref_key_Object, find_Object_eq]
    cases hm : map_find k m with
    | some y =>
      have hem : map_emplace k create m = m := map_emplace_present k create y m hm
      refine ⟨trivial, ?_, ?_, ?_, ?_⟩
      · intro x hx
        simp [hem, hm, ← hx]
      · intro hn
        simp at hn
      · simp [hem]
      · simp [hem, hm]
    | none =>
      have hf : map_find k (map_emplace k create m) = some create :=
        map_find_emplace_absent k create m hm
      refine ⟨trivial, ?_, ?_, ?_, ?_⟩
      · intro x hx
        simp at hx
      · intro _
        refine ⟨hf, ?_⟩
        intro k2 hk2
        exact map_find_emplace_other k k2 create m hk2
      · have h2 : map_emplace k create (map_emplace k create m) = map_emplace k create m :=
          map_emplace_present k create create _ hf
        simp [h2]
      · simp [hf]
  | Single v => simp [type] at h
  | Tensor v => simp [type] at h
  | Block v => simp [type] at h
  | Array m => simp [type] at h

/-- C4 at the Object that holds `a` under `"k"`: the hypothesis holds there. -/
theorem C4_insert_create_or_get_witness :
    (type (entry_Memory.Object [("k", .Single (.int 1))]) = EntryType.Null ∨
      type (entry_Memory.Object [("k", .Single (.int 1))]) = EntryType.Object) ∧
    (insert "k" (.Object [("k", .Single (.int 1))])).2 = .Object [("k", .Single (.int 1))] ∧
    find "k" (insert "k" (.Object [("k", .Single (.int 1))])).2
      = (insert "k" (.Object [("k", .Single (.int 1))])).1 :=
  ⟨Or.inr rfl,
   ((C4_insert_create_or_get (.Object [("k", .Single (.int 1))]) "k" (Or.inr rfl)).2.1
      (.Single (.int 1)) rfl).1,
   (C4_insert_create_or_get (.Object [("k", .Single (.int 1))]) "k" (Or.inr rfl)).2.2.2.2⟩

/-- C5: on a fresh entry `insert(key)` and `set_attribute(name, v)` leave the tag
Object, `push_back()` leaves the tag Array, and `set_single`, `set_tensor` and
`set_block` leave the tags Single, Tensor and Block; each call succeeds. -/
theorem C5_promotion_from_null (key name : String) (v : single_t) (t : tensor_t)
    (b : block_t) :
    type create = EntryType.Null ∧
    type (insert key create).2 = EntryType.Object ∧
    (set_attribute_raw name v create).1 = .ok () ∧
    type (set_attribute_raw name v create).2 = EntryType.Object ∧
    type (push_back create).2 = EntryType.Array ∧
    (set_single v create).1 = .ok () ∧
    type (set_single v create).2 = EntryType.Single ∧
    (set_tensor t create).1 = .ok () ∧
    type (set_tensor t create).2 = EntryType.Tensor ∧
    (set_block b create).1 = .ok () ∧
    type (set_block b create).2 = EntryType.Block := by
  refine ⟨rfl, rfl, ?_, ?_, rfl, rfl, rfl, rfl, rfl, rfl, rfl⟩
  · simp [create, set_attribute_raw_Null]
  · simp [create, set_attribute_raw_Null, type]

/-- C6: on a node whose tag is Array, `insert(key)` (string and `Path` overload)
throws the `runtime_error` of `as_object()` and the node is unchanged; on a node whose
tag is Object, `push_back()` throws the `runtime_error` of `as_array()` and the node is
unchanged.  In the in-memory backend the same two calls return the null handle and
leave the entry unchanged. -/
theorem C6_promotion_lock_in (n o : type_union) (e f : Entry) (key : String) (path : Path)
    (emplace_back : List type_union → cursor × List type_union)
    (hn : HierarchicalTree.type n = type_tags.Array)
    (ho : HierarchicalTree.type o = type_tags.Object)
    (he : type e = EntryType.Array) (hf : type f = EntryType.Object) :
    HierarchicalTree.insert_string key n = (.error (.runtime_error ""), n) ∧
    HierarchicalTree.insert path n = (.error (.runtime_error ""), n) ∧
    HierarchicalTree.push_back emplace_back o = (.error (.runtime_error ""), o) ∧
    EntryImplement.insert key e = (none, e) ∧
    EntryImplement.push_back f = (none, f) := by
  refine ⟨?_, ?_, ?_, ?_, ?_⟩
  · cases n with
    | Array m => rfl
    | Empty => simp [HierarchicalTree.type, type_tags.Array] at hn
    | Object m => simp [HierarchicalTree.type, type_tags.Array] at hn
    | Element v => simp [HierarchicalTree.type, type_tags.Array] at hn; omega
  · cases n with
    | Array m => rfl
    | Empty => simp [HierarchicalTree.type, type_tags.Array] at hn
    | Object m => simp [HierarchicalTree.type, type_tags.Array] at hn
    | Element v => simp [HierarchicalTree.type, type_tags.Array] at hn; omega
  · cases o with
    | Object m => rfl
    | Empty => simp [HierarchicalTree.type, type_tags.Object] at ho
    | Array m => simp [HierarchicalTree.type, type_tags.Object] at ho
    | Element v => simp [HierarchicalTree.type, type_tags.Object] at ho; omega
  · cases e <;> first | rfl | simp [type] at he
  · cases f <;> first | rfl | simp [type] at hf

/-- C6 at an Array node with one element and an Object node with one child. -/
theorem C6_promotion_lock_in_witness :
    HierarchicalTree.type (.Array [.Empty]) = type_tags.Array ∧
    HierarchicalTree.type (.Object [("a", .Empty)]) = type_tags.Object ∧
    type (entry_Memory.Array [.Null]) = EntryType.Array ∧
    type (entry_Memory.Object [("a", .Null)]) = EntryType.Object ∧
    HierarchicalTree.insert_string "key" (.Array [.Empty])
      = (.error (.runtime_error ""), .Array [.Empty]) ∧
    HierarchicalTree.push_back HTContainerProxyArray.push_back (.Object [("a", .Empty)])
      = (.error (.runtime_error ""), .Object [("a", .Empty)]) :=
  ⟨rfl, rfl, rfl, rfl,
   (C6_promotion_lock_in (.Array [.Empty]) (.Object [("a", .Empty)]) (.Array [.Null])
      (.Object [("a", .Null)]) "key" [.Key "key"] HTContainerProxyArray.push_back
      rfl rfl rfl rfl).1,
   (C6_promotion_lock_in (.Array [.Empty]) (.Object [("a", .Empty)]) (.Array [.Null])
      (.Object [("a", .Null)]) "key" [.Key "key"] HTContainerProxyArray.push_back
      rfl rfl rfl rfl).2.2.1⟩

/-- C7: on an in-memory entry whose tag is Array or Object, each of `set_single`,
`set_tensor` and `set_block` throws `runtime_error("Set value failed!")` and the entry
after the call is the entry before it. -/
theorem C7_leaf_setters_reject_containers (e : Entry) (v : single_t) (t : tensor_t)
    (b : block_t) (h : type e = EntryType.Array ∨ type e = EntryType.Object) :
    set_single v e = (.error (.runtime_error "Set value failed!"), e) ∧
    set_tensor t e = (.error (.runtime_error "Set value failed!"), e) ∧
    set_block b e = (.error (.runtime_error "Set value failed!"), e) := by
  cases e with
  | Array m => exact ⟨rfl, rfl, rfl⟩
  | Object m => exact ⟨rfl, rfl, rfl⟩
  | Null => simp [type] at h
  | Single x => simp [type] at h
  | Tensor x => simp [type] at h
  | Block x => simp [type] at h

/-- C7 at an Array entry that holds one scalar. -/
theorem C7_leaf_setters_reject_containers_witness :
    (type (entry_Memory.Array [.Single (.int 7)]) = EntryType.Array ∨
      type (entry_Memory.Array [.Single (.int 7)]) = EntryType.Object) ∧
    set_single (.bool true) (.Array [.Single (.int 7)])
      = (.error (.runtime_error "Set value failed!"), .Array [.Single (.int 7)]) :=
  ⟨Or.inl rfl,
   (C7_leaf_setters_reject_containers (.Array [.Single (.int 7)]) (.bool true) ⟨1, [], []⟩
      ⟨1, [], []⟩ (Or.inl rfl)).1⟩

/-- C8 fails as stated: `set_single` on a Tensor entry succeeds and the entry becomes
a Single; likewise `set_tensor` on a Block entry and `set_block` on a Single entry
succeed. -/
theorem C8_counterexample :
    set_single (.int 1) (.Tensor ⟨8, [1], [0, 0, 0, 0, 0, 0, 0, 0]⟩)
      = (.ok (), .Single (.int 1)) ∧
    set_tensor ⟨1, [1], [5]⟩ (.Block ⟨1, [2], [3, 4]⟩) = (.ok (), .Tensor ⟨1, [1], [5]⟩) ∧
    set_block ⟨1, [2], [3, 4]⟩ (.Single (.int 1)) = (.ok (), .Block ⟨1, [2], [3, 4]⟩) ∧
    ¬ (∀ (v : single_t) (t : tensor_t),
        set_single v (.Tensor t) = (.error (.runtime_error "Set value failed!"), .Tensor t)) := by
  refine ⟨rfl, rfl, rfl, ?_⟩
  intro h
  have h1 := h (.int 1) ⟨8, [1], [0]⟩
  simp [set_single, type, EntryType.index] at h1

/-- C8 as amended: on an entry whose tag is below Array (Null, Single, Tensor or
Block) every leaf setter succeeds, and the entry then holds the new value under the
tag of the setter. -/
theorem C8_leaf_setters_overwrite_leaves (e : Entry) (v : single_t) (t : tensor_t)
    (b : block_t) (h : (type e).index < EntryType.Array.index) :
    set_single v e = (.ok (), .Single v) ∧
    set_tensor t e = (.ok (), .Tensor t) ∧
    set_block b e = (.ok (), .Block b) := by
  simp [set_single, set_tensor, set_block, h]

/-- C8 as amended, at a Tensor entry. -/
theorem C8_leaf_setters_overwrite_leaves_witness :
    (type (entry_Memory.Tensor ⟨1, [1], [5]⟩)).index < EntryType.Array.index ∧
    set_single (.string "s") (.Tensor ⟨1, [1], [5]⟩) = (.ok (), .Single (.string "s")) :=
  ⟨by decide,
   (C8_leaf_setters_overwrite_leaves (.Tensor ⟨1, [1], [5]⟩) (.string "s") ⟨1, [], []⟩
      ⟨1, [], []⟩ (by decide)).1⟩

/-! ### The tag state machine of the node facade -/

/-- C9 fails as stated: after `clear()` an Array node is still an Array, `empty()` is
false, and `insert("key")` still throws. -/
theorem C9_counterexample :
    (HierarchicalTree.clear (.Array [.Empty])).2 = .Array [] ∧
    HierarchicalTree.empty (HierarchicalTree.clear (.Array [.Empty])).2 = false ∧
    HierarchicalTree.type (HierarchicalTree.clear (.Array [.Empty])).2 = type_tags.Array ∧
    HierarchicalTree.insert_string "key" (HierarchicalTree.clear (.Array [.Empty])).2
      = (.error (.runtime_error ""), .Array []) := by
  refine ⟨rfl, rfl, rfl, rfl⟩

/-- C9 as amended: `clear()` succeeds and keeps the tag of every node; afterwards the
size is 0, a node that is neither Array nor Object is unchanged, and a node that was
an Array still rejects `insert(key)` and stays an empty Array. -/
theorem C9_clear_keeps_tag (n : type_union) :
    (HierarchicalTree.clear n).1 = .ok () ∧
    HierarchicalTree.type (HierarchicalTree.clear n).2 = HierarchicalTree.type n ∧
    HierarchicalTree.size (HierarchicalTree.clear n).2 = 0 ∧
    (HierarchicalTree.clear .Empty).2 = .Empty ∧
    (∀ v, (HierarchicalTree.clear (.Element v)).2 = .Element v) ∧
    (∀ m key, HierarchicalTree.insert_string key (HierarchicalTree.clear (.Array m)).2
        = (.error (.runtime_error ""), .Array [])) := by
  refine ⟨?_, ?_, ?_, rfl, fun _ => rfl, fun _ _ => rfl⟩
  · cases n <;> rfl
  · cases n <;> rfl
  · cases n <;> rfl

/-- C10 fails as stated: `set_value` of a scalar on an Array node, and on an Object
node, succeeds and leaves a leaf that holds the scalar. -/
theorem C10_counterexample :
    HierarchicalTree.set_value (.Int 3) (.Array [.Empty, .Empty])
      = (.ok (), .Element (.Int 3)) ∧
    HierarchicalTree.assign (.Int 3) (.Object [("a", .Empty)])
      = (.ok (), .Element (.Int 3)) ∧
    HierarchicalTree.type (.Array [.Empty, .Empty]) = type_tags.Array ∧
    HierarchicalTree.type (HierarchicalTree.set_value (.Int 3) (.Array [.Empty, .Empty])).2
      ≠ type_tags.Array := by
  refine ⟨rfl, rfl, rfl, ?_⟩
  decide

/-- C10 as amended: on every node, Array and Object nodes included, `set_value(v)`
and `operator=(v)` succeed; afterwards the node holds `v`, its tag is the tag of the
type of `v`, it is an element, and it has no children. -/
theorem C10_set_value_replaces (n : type_union) (v : Element) :
    HierarchicalTree.set_value v n = (.ok (), .Element v) ∧
    HierarchicalTree.assign v n = (.ok (), .Element v) ∧
    HierarchicalTree.type (HierarchicalTree.set_value v n).2 = 3 + v.position ∧
    HierarchicalTree.is_element (HierarchicalTree.set_value v n).2 = true ∧
    HierarchicalTree.size (HierarchicalTree.set_value v n).2 = 0 := by
  refine ⟨rfl, rfl, rfl, ?_, rfl⟩
  simp [HierarchicalTree.is_element, HierarchicalTree.set_value, HierarchicalTree.type,
    type_tags.Array]
  omega

/-! ### More lemmas on the map helpers -/

theorem map_find_eq_none_of_not_mem {α : Type} (k : String) (m : List (String × α))
    (h : k ∉ m.map Prod.fst) : map_find k m = none := by
  induction m with
  | nil => rfl
  | cons p rest ih =>
    obtain ⟨k1, x⟩ := p
    simp only [List.map_cons, List.mem_cons, not_or] at h
    simp [map_find, h.1, ih h.2]

theorem map_find_erase_self {α : Type} (k : String) (m : List (String × α))
    (hu : (m.map Prod.fst).Nodup) : map_find k (map_erase k m) = none := by
  induction m with
  | nil => rfl
  | cons p rest ih =>
    obtain ⟨k1, x⟩ := p
    simp only [List.map_cons, List.nodup_cons] at hu
    by_cases hk : k = k1
    · subst hk
      simp only [map_erase, if_true]
      exact map_find_eq_none_of_not_mem k rest hu.1
    · simp [map_erase, hk, map_find, ih hu.2]

theorem map_find_erase_other {α : Type} (k k2 : String) (m : List (String × α))
    (h : k2 ≠ k) : map_find k2 (map_erase k m) = map_find k2 m := by
  induction m with
  | nil => rfl
  | cons p rest ih =>
    obtain ⟨k1, x⟩ := p
    by_cases hk : k = k1
    · subst hk
      simp [map_erase, map_find, h]
    · simp [map_erase, hk, map_find, ih]

theorem map_find_assign_self {α : Type} (k : String) (y : α) (m : List (String × α)) :
    map_find k (map_assign k y m) = (map_find k m).map (fun _ => y) := by
  induction m with
  | nil => rfl
  | cons p rest ih =>
    obtain ⟨k1, x⟩ := p
    by_cases hk : k = k1
    · subst hk
      simp [map_assign, map_find]
    · simp [map_assign, hk, map_find, ih]

theorem map_find_assign_other {α : Type} (k k2 : String) (y : α) (m : List (String × α))
    (h : k2 ≠ k) : map_find k2 (map_assign k y m) = map_find k2 m := by
  induction m with
  | nil => rfl
  | cons p rest ih =>
    obtain ⟨k1, x⟩ := p
    by_cases hk : k = k1
    · subst hk
      simp [map_assign, map_find, h]
    · simp [map_assign, hk, map_find, ih]

theorem map_keys_insert_ordered {α : Type} (k : String) (e : α) (m : List (String × α)) :
    ((map_insert_ordered k e m).map Prod.fst).Perm (k :: m.map Prod.fst) := by
  induction m with
  | nil => simp [map_insert_ordered]
  | cons p rest ih =>
    obtain ⟨k1, x⟩ := p
    by_cases hl : key_less k k1 = true
    · simp [map_insert_ordered, hl]
    · simp only [map_insert_ordered, hl, List.map_cons]
      exact (List.Perm.cons k1 ih).trans (List.Perm.swap k k1 _)

theorem map_find_eq_none_iff {α : Type} (k : String) (m : List (String × α)) :
    map_find k m = none ↔ k ∉ m.map Prod.fst := by
  induction m with
  | nil => simp [map_find]
  | cons p rest ih =>
    obtain ⟨k1, x⟩ := p
    by_cases hk : k = k1
    · simp [map_find, hk]
    · simp [map_find, hk, ih]

/-- The invariant of `std::map`, keys are unique, is kept by `emplace`. -/
theorem map_emplace_keys_nodup {α : Type} (k : String) (e : α) (m : List (String × α))
    (hu : (m.map Prod.fst).Nodup) : ((map_emplace k e m).map Prod.fst).Nodup := by
  unfold map_emplace
  cases hm : map_find k m with
  | some _ => exact hu
  | none =>
    have hk : k ∉ m.map Prod.fst := (map_find_eq_none_iff k m).1 hm
    exact (map_keys_insert_ordered k e m).nodup_iff.2 (List.nodup_cons.2 ⟨hk, hu⟩)

/-- The invariant of `std::map`, keys are unique, is kept by `erase`. -/
theorem map_erase_keys_nodup {α : Type} (k : String) (m : List (String × α))
    (hu : (m.map Prod.fst).Nodup) : ((map_erase k m).map Prod.fst).Nodup := by
  induction m with
  | nil => exact hu
  | cons p rest ih =>
    obtain ⟨k1, x⟩ := p
    simp only [List.map_cons, List.nodup_cons] at hu
    by_cases hk : k = k1
    · simp [map_erase, hk, hu.2]
    · simp only [map_erase, hk, if_false, List.map_cons, List.nodup_cons]
      refine ⟨?_, ih hu.2⟩
      intro hmem
      have h1 : map_find k1 (map_erase k rest) ≠ none := by
        intro h0
        exact ((map_find_eq_none_iff k1 _).1 h0) hmem
      rw [map_find_erase_other k k1 rest (fun h => hk h.symm)] at h1
      exact h1 (map_find_eq_none_of_not_mem k1 rest hu.1)

/-! ### Removal from an Object -/

/-- C11: on an Object entry (a map with unique keys) that holds `x` under `k`,
`erase(k)` returns `x`; afterwards `find(k)` is the null iterator, the entry is still
an Object, and every other key addresses the entry it addressed before. -/
theorem C11_erase_returns_entry (m : List (String × entry_Memory)) (k : String) (x : Entry)
    (hu : (m.map Prod.fst).Nodup) (hk : deref (.Object m) (some (.key k)) = some x) :
    (erase k (.Object m)).1 = .ok x ∧
    find k (erase k (.Object m)).2 = none ∧
    type (erase k (.Object m)).2 = EntryType.Object ∧
    (∀ k2, k2 ≠ k →
      deref (erase k (.Object m)).2 (some (.key k2)) = deref (.Object m) (some (.key k2))) := by
  have hk1 : map_find k m = some x := hk
  have he : erase k (.Object m) = (.ok x, .Object (map_erase k m)) := by
    simp [erase, hk1]
  rw [he]
  refine ⟨rfl, ?_, rfl, ?_⟩
  · simp [find_Object_eq, map_find_erase_self k m hu]
  · intro k2 hk2
    simp [deref_key_Object, map_find_erase_other k k2 m hk2]

/-- C11 at the Object that holds a scalar under `"a"` and a tensor under `"b"`. -/
theorem C11_erase_returns_entry_witness :
    ([("a", entry_Memory.Single (.int 1)), ("b", .Tensor ⟨1, [1], [5]⟩)].map Prod.fst).Nodup ∧
    deref (.Object [("a", .Single (.int 1)), ("b", .Tensor ⟨1, [1], [5]⟩)]) (some (.key "a"))
      = some (.Single (.int 1)) ∧
    (erase "a" (.Object [("a", .Single (.int 1)), ("b", .Tensor ⟨1, [1], [5]⟩)])).1
      = .ok (.Single (.int 1)) ∧
    find "a" (erase "a" (.Object [("a", .Single (.int 1)), ("b", .Tensor ⟨1, [1], [5]⟩)])).2
      = none :=
  ⟨by decide, rfl,
   (C11_erase_returns_entry [("a", .Single (.int 1)), ("b", .Tensor ⟨1, [1], [5]⟩)] "a"
      (.Single (.int 1)) (by decide) rfl).1,
   (C11_erase_returns_entry [("a", .Single (.int 1)), ("b", .Tensor ⟨1, [1], [5]⟩)] "a"
      (.Single (.int 1)) (by decide) rfl).2.1⟩

/-- C12 fails as stated: `erase` of an absent key returns normally with a fresh Null
entry, on an Object without the key and on a scalar entry alike, and
`HierarchicalTree::erase` on an Array node returns normally; none of the calls throws. -/
theorem C12_counterexample :
    erase "k" (.Object []) = (.ok create, .Object []) ∧
    erase "k" (.Single (.int 1)) = (.ok create, .Single (.int 1)) ∧
    HierarchicalTree.erase "k" (.Array []) = (.ok (), .Array []) ∧
    ¬ (∃ x, (erase "k" (.Object [])).1 = .error x) := by
  refine ⟨rfl, rfl, rfl, ?_⟩
  rintro ⟨x, hx⟩
  simp [erase, map_find] at hx

/-- C12 as amended: on an in-memory entry in which `find(k)` is the null iterator,
whatever its tag, `erase(k)` throws nothing, returns a fresh Null entry and leaves the
entry as it was; on a node whose tag is not Object, `HierarchicalTree::erase(key)`
throws nothing and leaves the node as it was. -/
theorem C12_erase_absent_is_silent (e : Entry) (k : String) (n : type_union)
    (h : find k e = none) (hn : HierarchicalTree.type n ≠ type_tags.Object) :
    erase k e = (.ok create, e) ∧ HierarchicalTree.erase k n = (.ok (), n) := by
  constructor
  · cases e with
    | Object m =>
      cases hm : map_find k m with
      | none => simp [erase, hm]
      | some y => simp [find_Object_eq, hm] at h
    | Null => rfl
    | Single v => rfl
    | Tensor v => rfl
    | Block v => rfl
    | Array m => rfl
  · cases n with
    | Object m => simp [HierarchicalTree.type, type_tags.Object] at hn
    | Empty => rfl
    | Array m => rfl
    | Element v => rfl

/-- C12 as amended, at an Object that holds only `"a"` and at a scalar node. -/
theorem C12_erase_absent_is_silent_witness :
    find "k" (.Object [("a", .Null)]) = none ∧
    HierarchicalTree.type (.Element (.Int 1)) ≠ type_tags.Object ∧
    erase "k" (.Object [("a", .Null)]) = (.ok create, .Object [("a", .Null)]) ∧
    HierarchicalTree.erase "k" (.Element (.Int 1)) = (.ok (), .Element (.Int 1)) :=
  ⟨rfl, by decide,
   (C12_erase_absent_is_silent (.Object [("a", .Null)]) "k" (.Element (.Int 1)) rfl
      (by decide)).1,
   (C12_erase_absent_is_silent (.Object [("a", .Null)]) "k" (.Element (.Int 1)) rfl
      (by decide)).2⟩

/-! ### Arrays -/

/-- C14: on an Array entry with at least one element, `pop_back()` returns the last
element and leaves the array without it: one element shorter, the remaining elements
at their positions.  After `push_back()`, `pop_back()` returns the appended entry and
leaves the array that was there before. -/
theorem C14_pop_back_returns_last (m : List entry_Memory) (hne : m ≠ []) :
    pop_back (.Array m) = (.ok (m.getLast hne), .Array m.dropLast) ∧
    m.dropLast.length + 1 = m.length ∧
    (∀ i, i < m.dropLast.length → m.dropLast.get? i = m.get? i) ∧
    deref (push_back (.Array m)).2 (push_back (.Array m)).1 = some create ∧
    pop_back (push_back (.Array m)).2 = (.ok create, .Array m) := by
  refine ⟨?_, ?_, ?_, ?_, ?_⟩
  · simp [pop_back, List.getLast?_eq_getLast _ hne]
  · have := List.length_pos.2 hne
    simp only [List.length_dropLast]
    omega
  · intro i hi
    simp only [List.length_dropLast] at hi
    simp only [List.get?_eq_getElem?]
    rw [List.getElem?_eq_getElem (by simp; omega), List.getElem?_eq_getElem (by omega)]
    simp [List.getElem_dropLast]
  · simp [push_back, type, deref]
  · simp [push_back, type, pop_back]

/-- C14 at an Array of a scalar and a Null entry. -/
theorem C14_pop_back_returns_last_witness :
    ([entry_Memory.Single (.int 1), .Null] ≠ []) ∧
    pop_back (.Array [.Single (.int 1), .Null]) = (.ok .Null, .Array [.Single (.int 1)]) :=
  ⟨by simp, (C14_pop_back_returns_last [.Single (.int 1), .Null] (by simp)).1⟩

theorem push_back_Array_eq (m : List entry_Memory) :
    push_back (.Array m) = (some (.index m.length), .Array (m ++ [create])) := rfl

theorem push_back_Null_eq : push_back .Null = (some (.index 0), .Array [create]) := rfl

theorem push_back_times_Array (n : Nat) (m : List entry_Memory) :
    push_back_times n (.Array m)
      = ((List.range' m.length n).map (fun j => some (Slot.index j)),
         .Array (m ++ List.replicate n create)) := by
  induction n generalizing m with
  | zero => simp [push_back_times]
  | succ n ih =>
    simp only [push_back_times, push_back_Array_eq, ih, List.length_append,
      List.length_singleton, List.range'_succ, List.map_cons, List.append_assoc,
      List.singleton_append, List.replicate_succ]

theorem push_back_values_Array (vs : List single_t) (m : List entry_Memory) :
    push_back_values vs (.Array m)
      = ((List.range' m.length vs.length).map (fun j => some (Slot.index j)),
         .Array (m ++ vs.map entry_Memory.Single)) := by
  induction vs generalizing m with
  | nil => simp [push_back_values]
  | cons v vs ih =>
    have hs : set_single_at (some (.index m.length)) v (.Array (m ++ [create]))
        = (.ok (), .Array (m ++ [.Single v])) := by
      simp [set_single_at, set_single, create, type, EntryType.index]
    simp only [push_back_values, push_back_Array_eq, hs, ih, List.length_append,
      List.length_singleton, List.length_cons, List.range'_succ, List.map_cons,
      List.append_assoc, List.singleton_append, List.length_nil, Nat.zero_add]

theorem push_back_times_create (n : Nat) (hn : 0 < n) :
    push_back_times n create
      = ((List.range n).map (fun j => some (Slot.index j)), .Array (List.replicate n create)) := by
  obtain ⟨k, rfl⟩ := Nat.exists_eq_succ_of_ne_zero (Nat.pos_iff_ne_zero.1 hn)
  simp only [push_back_times, create, push_back_Null_eq, push_back_times_Array,
    List.length_singleton, List.range_eq_range', List.range'_succ, List.map_cons,
    List.singleton_append, List.replicate_succ, Nat.zero_add]

theorem push_back_values_create (vs : List single_t) (hv : 0 < vs.length) :
    push_back_values vs create
      = ((List.range vs.length).map (fun j => some (Slot.index j)),
         .Array (vs.map entry_Memory.Single)) := by
  cases vs with
  | nil => simp at hv
  | cons v vs =>
    have hs : set_single_at (some (.index 0)) v (.Array [create])
        = (.ok (), .Array [.Single v]) := by
      simp [set_single_at, set_single, create, type, EntryType.index]
    simp only [push_back_values, create, push_back_Null_eq, push_back_values_Array,
      List.length_singleton, List.length_cons, List.range_eq_range', List.range'_succ,
      List.map_cons, List.singleton_append, Nat.zero_add]
    simp only [create] at hs
    simp [hs, push_back_values_Array]

theorem at_Array_in_range (m : List entry_Memory) (i : Nat) (hi : i < m.length) :
    EntryImplement.at i (.Array m) = (.ok (some (.index i)), .Array m) := by
  simp [EntryImplement.at, hi]

/-- C13: after `n` calls of `push_back()` on a fresh entry the array has the `n`
appended entries, the call number `j + 1` returned the address of slot `j`, `at(i)` for
`i < n` is the handle the call number `i + 1` returned and changes nothing, and
`items()` visits the slots `0, ..., n - 1` in this order.  The same holds when a value
is stored through each returned handle: slot `i` then holds the value number
`i + 1`. -/
theorem C13_array_insertion_order (n i : Nat) (vs : List single_t) (hn : i < n)
    (hv : i < vs.length) :
    (push_back_times n create).1 = (List.range n).map (fun j => some (Slot.index j)) ∧
    (push_back_times n create).2 = .Array (List.replicate n create) ∧
    (push_back_times n create).1.get? i = some (some (.index i)) ∧
    EntryImplement.at i (push_back_times n create).2
      = (.ok (some (.index i)), (push_back_times n create).2) ∧
    items (push_back_times n create).2 = (List.range n).map Slot.index ∧
    (push_back_values vs create).1
      = (List.range vs.length).map (fun j => some (Slot.index j)) ∧
    (push_back_values vs create).2 = .Array (vs.map entry_Memory.Single) ∧
    EntryImplement.at i (push_back_values vs create).2
      = (.ok (some (.index i)), (push_back_values vs create).2) ∧
    deref (push_back_values vs create).2 (some (.index i))
      = (vs.get? i).map entry_Memory.Single ∧
    items (push_back_values vs create).2 = (List.range vs.length).map Slot.index := by
  rw [push_back_times_create n (by omega), push_back_values_create vs (by omega)]
  refine ⟨rfl, rfl, ?_, ?_, ?_, rfl, rfl, ?_, ?_, ?_⟩
  · simp [hn]
  · exact at_Array_in_range _ i (by simpa using hn)
  · simp [items]
  · exact at_Array_in_range _ i (by simpa using hv)
  · simp [deref]
  · simp [items]

/-- C13 for three calls, at the last index. -/
theorem C13_array_insertion_order_witness :
    (2 < 3) ∧
    (2 < [single_t.int 10, single_t.int 20, single_t.int 30].length) ∧
    EntryImplement.at 2 (push_back_times 3 create).2
      = (.ok (some (.index 2)), (push_back_times 3 create).2) ∧
    deref (push_back_values [.int 10, .int 20, .int 30] create).2 (some (.index 2))
      = some (.Single (.int 30)) :=
  ⟨by decide, by decide,
   (C13_array_insertion_order 3 2 [.int 10, .int 20, .int 30] (by decide) (by decide)).2.2.2.1,
   (C13_array_insertion_order 3 2 [.int 10, .int 20, .int 30] (by decide)
      (by decide)).2.2.2.2.2.2.2.2.1⟩

/-- C15 fails as stated: after two calls of `push_back()` the call `at(-1)` leaves the
array with its two elements and returns no handle to a new slot; on the node facade
`operator[](-1)` on an Array of two nodes returns a new empty node and leaves the two
nodes. -/
theorem C15_counterexample :
    (push_back_times 2 create).2 = .Array [.Null, .Null] ∧
    (EntryImplement.at (-1) (push_back_times 2 create).2).2 = .Array [.Null, .Null] ∧
    (items (EntryImplement.at (-1) (push_back_times 2 create).2).2).length = 2 ∧
    (EntryImplement.at (-1) (push_back_times 2 create).2).1
      = .error (.undefined_behaviour "vector index out of range") ∧
    HierarchicalTree.subscript (-1) (.Array [.Empty, .Empty])
      = (.ok .Empty, .Array [.Empty, .Empty]) := by
  refine ⟨rfl, rfl, rfl, rfl, rfl⟩

/-- C15 as amended: on an Array entry of size `n`, `at(idx)` with `0 <= idx < n`
resolves to the slot `idx` that is there and leaves the array as it is.  The new last
slot is made by `push_back()`, which resolves to it, the size becoming `n + 1`; three
calls of `push_back()` on a fresh entry give an array with a third slot. -/
theorem C15_at_addresses_push_back_appends (m : List entry_Memory) (idx : Int)
    (h0 : 0 ≤ idx) (h1 : idx < (m.length : Int)) :
    EntryImplement.at idx (.Array m) = (.ok (some (.index idx.toNat)), .Array m) ∧
    push_back (.Array m) = (some (.index m.length), .Array (m ++ [create])) ∧
    (items (push_back (.Array m)).2).length = m.length + 1 ∧
    deref (push_back (.Array m)).2 (push_back (.Array m)).1 = some create ∧
    (push_back_times 3 create).2 = .Array [.Null, .Null, .Null] ∧
    (push_back_times 3 create).1 = [some (.index 0), some (.index 1), some (.index 2)] := by
  refine ⟨?_, rfl, ?_, ?_, rfl, rfl⟩
  · simp [EntryImplement.at, h0, h1]
  · simp [push_back_Array_eq, items]
  · simp [push_back_Array_eq, deref]

/-- C15 as amended, at an Array of two entries and index 1. -/
theorem C15_at_addresses_push_back_appends_witness :
    ((0 : Int) ≤ 1) ∧
    ((1 : Int) < (([entry_Memory.Null, .Single (.int 2)] : List entry_Memory).length : Int)) ∧
    EntryImplement.at 1 (.Array [.Null, .Single (.int 2)])
      = (.ok (some (.index 1)), .Array [.Null, .Single (.int 2)]) :=
  ⟨by decide, by decide,
   (C15_at_addresses_push_back_appends [.Null, .Single (.int 2)] 1 (by decide)
      (by decide)).1⟩

/-- C16 (the code at the failing inputs): on an Array of two entries `at(2)` and
`at(-1)` hand their index to `operator[]` of the vector without a check, which is
undefined behaviour; no `out_of_range` is thrown. -/
theorem C16_at_out_of_range_unchecked :
    (EntryImplement.at 2 (.Array [.Null, .Null])).1
      = .error (.undefined_behaviour "vector index out of range") ∧
    (EntryImplement.at (-1) (.Array [.Null, .Null])).1
      = .error (.undefined_behaviour "vector index out of range") ∧
    (∀ msg, (EntryImplement.at 2 (.Array [.Null, .Null])).1 ≠ .error (.out_of_range msg)) := by
  refine ⟨rfl, rfl, ?_⟩
  intro msg h
  simp [EntryImplement.at] at h

/-- C17 (the code at the failing input): after `set_attribute("units", "m")` on a
fresh entry `children()` visits the pair stored under `"@units"`; on an Object with
the one child `"a"` the sequence of `children()` has one pair before the call and two
pairs after it. -/
theorem C17_children_visits_attributes :
    children (set_attribute_raw "units" (.string "m") create).2
      = .ok [("@units", .Single (.string "m"))] ∧
    children (.Object [("a", .Null)]) = .ok [("a", .Null)] ∧
    children (set_attribute_raw "units" (.string "m") (.Object [("a", .Null)])).2
      = .ok [("@units", .Single (.string "m")), ("a", .Null)] ∧
    starts_with_marker "@units" = true := by
  refine ⟨rfl, rfl, rfl, rfl⟩

/-! ### Iterator equality -/

/-- C20: `operator==` holds exactly when the two current element pointers are equal,
whatever the proxies are; it is reflexive, symmetric and transitive, `operator!=` is
its negation, and two iterators whose current pointer is null are equal. -/
theorem C20_iterator_equality (P Q R A : Type) [DecidableEq A] (a : Iterator P A)
    (b : Iterator Q A) (c : Iterator R A) :
    (Iterator.eq a b = true ↔ a.m_current_ = b.m_current_) ∧
    Iterator.eq a a = true ∧
    Iterator.eq a b = Iterator.eq b a ∧
    (Iterator.eq a b = true → Iterator.eq b c = true → Iterator.eq a c = true) ∧
    Iterator.ne a b = !Iterator.eq a b ∧
    (a.m_current_ = none → b.m_current_ = none → Iterator.eq a b = true) ∧
    (Iterator.to_bool a = false → Iterator.to_bool b = false → Iterator.eq a b = true) := by
  refine ⟨?_, ?_, ?_, ?_, ?_, ?_, ?_⟩
  · simp [Iterator.eq]
  · simp [Iterator.eq]
  · simp only [Iterator.eq]
    exact decide_eq_decide.2 eq_comm
  · simp only [Iterator.eq, decide_eq_true_eq]
    intro h1 h2
    exact h1.trans h2
  · simp [Iterator.ne, Iterator.eq]
  · intro h1 h2
    simp [Iterator.eq, h1, h2]
  · simp only [Iterator.to_bool, Iterator.eq, decide_eq_false_iff_not, not_not,
      decide_eq_true_eq]
    intro h1 h2
    rw [h1, h2]

/-! ### Attributes -/

theorem marker_append_inj (a b : String) (h : "@" ++ a = "@" ++ b) : a = b := by
  have h1 := congrArg String.data h
  simp only [String.data_append, List.append_cancel_left_eq] at h1
  exact String.ext h1

theorem get_attribute_raw_Object (name : String) (m : List (String × entry_Memory)) :
    get_attribute_raw name (.Object m)
      = (match map_find ("@" ++ name) m with
         | some x => get_single x
         | none => .error (.out_of_range ("Can not find attribute '" ++ name ++ "'"))) := by
  unfold get_attribute_raw
  rw [find_Object_eq]
  cases hm : map_find ("@" ++ name) m with
  | none => rfl
  | some x => simp [deref_key_Object, hm]

theorem set_attribute_raw_Object (name : String) (v : single_t)
    (m : List (String × entry_Memory))
    (hc : ∀ x, map_find ("@" ++ name) m = some x → (type x).index < EntryType.Array.index) :
    set_attribute_raw name v (.Object m)
      = (.ok (), .Object (map_assign ("@" ++ name) (.Single v)
          (map_emplace ("@" ++ name) create m))) := by
  unfold set_attribute_raw
  rw [insert_Object_eq]
  cases hm : map_find ("@" ++ name) m with
  | some x =>
    have hx := hc x hm
    simp [set_single_at, map_emplace, hm, set_single, hx]
  | none =>
    have hf := map_find_emplace_absent ("@" ++ name) create m hm
    simp only [set_single_at, hf]
    simp [set_single, create, type, EntryType.index]

/-- C18 fails as stated: on an Object whose entry under `"@a"` is an Array,
`set_attribute("a", 1)` throws and leaves the entry as it was, and `get_attribute("a")`
throws as well. -/
theorem C18_counterexample :
    type (entry_Memory.Object [("@a", .Array [])]) = EntryType.Object ∧
    set_attribute_raw "a" (.int 1) (.Object [("@a", .Array [])])
      = (.error (.runtime_error "Set value failed!"), .Object [("@a", .Array [])]) ∧
    get_attribute_raw "a" (set_attribute_raw "a" (.int 1) (.Object [("@a", .Array [])])).2
      = .error (.runtime_error "This is not Single!") := by
  refine ⟨rfl, rfl, rfl⟩

/-- C18 as amended: on an entry whose tag is Null or Object and in which the entry
stored under `'@' + name`, if there is one, is neither an Array nor an Object,
`set_attribute(name, v)` succeeds and `get_attribute(name)` then returns `v`; a second
`set_attribute(name, w)` succeeds and `get_attribute(name)` then returns `w`; for every
other name `get_attribute` gives what it gave before. -/
theorem C18_attribute_round_trip (e : Entry) (name : String) (v w : single_t)
    (h : type e = EntryType.Null ∨ type e = EntryType.Object)
    (hc : ∀ x, deref e (some (.key ("@" ++ name))) = some x →
      (type x).index < EntryType.Array.index) :
    (set_attribute_raw name v e).1 = .ok () ∧
    get_attribute_raw name (set_attribute_raw name v e).2 = .ok v ∧
    (set_attribute_raw name w (set_attribute_raw name v e).2).1 = .ok () ∧
    get_attribute_raw name (set_attribute_raw name w (set_attribute_raw name v e).2).2
      = .ok w ∧
    (∀ name2, name2 ≠ name →
      get_attribute_raw name2 (set_attribute_raw name v e).2 = get_attribute_raw name2 e) := by
  have key : ∀ (m : List (String × entry_Memory)) (u : single_t),
      (∀ x, map_find ("@" ++ name) m = some x → (type x).index < EntryType.Array.index) →
      ∃ m2, set_attribute_raw name u (.Object m) = (.ok (), .Object m2) ∧
        map_find ("@" ++ name) m2 = some (.Single u) ∧
        ∀ k2, k2 ≠ "@" ++ name → map_find k2 m2 = map_find k2 m := by
    intro m u hm
    refine ⟨_, set_attribute_raw_Object name u m hm, ?_, ?_⟩
    · rw [map_find_assign_self]
      cases hf : map_find ("@" ++ name) m with
      | some x => simp [map_emplace, hf]
      | none => simp [map_find_emplace_absent _ _ _ hf]
    · intro k2 hk2
      rw [map_find_assign_other _ _ _ _ hk2, map_find_emplace_other _ _ _ _ hk2]
  have main : ∀ (m : List (String × entry_Memory)),
      (∀ x, map_find ("@" ++ name) m = some x → (type x).index < EntryType.Array.index) →
      (set_attribute_raw name v (.Object m)).1 = .ok () ∧
      get_attribute_raw name (set_attribute_raw name v (.Object m)).2 = .ok v ∧
      (set_attribute_raw name w (set_attribute_raw name v (.Object m)).2).1 = .ok () ∧
      get_attribute_raw name
        (set_attribute_raw name w (set_attribute_raw name v (.Object m)).2).2 = .ok w ∧
      (∀ name2, name2 ≠ name →
        get_attribute_raw name2 (set_attribute_raw name v (.Object m)).2
          = (match map_find ("@" ++ name2) m with
             | some x => get_single x
             | none => .error (.out_of_range ("Can not find attribute '" ++ name2 ++ "'")))) := by
    intro m hm
    obtain ⟨m2, h1, h2, h3⟩ := key m v hm
    have hm2 : ∀ x, map_find ("@" ++ name) m2 = some x →
        (type x).index < EntryType.Array.index := by
      intro x hx
      rw [h2] at hx
      cases hx
      simp [type, EntryType.index]
    obtain ⟨m3, g1, g2, _⟩ := key m2 w hm2
    rw [h1]
    simp only [g1]
    refine ⟨trivial, ?_, trivial, ?_, ?_⟩
    · simp [get_attribute_raw_Object, h2, get_single]
    · simp [get_attribute_raw_Object, g2, get_single]
    · intro name2 hne
      have hk : "@" ++ name2 ≠ "@" ++ name := fun hh => hne (marker_append_inj _ _ hh)
      rw [get_attribute_raw_Object, h3 _ hk]
  cases e with
  | Object m =>
    obtain ⟨a1, a2, a3, a4, a5⟩ := main m hc
    refine ⟨a1, a2, a3, a4, ?_⟩
    intro name2 hne
    rw [a5 name2 hne, get_attribute_raw_Object]
  | Null =>
    have hnull : ∀ u, set_attribute_raw name u .Null = set_attribute_raw name u (.Object []) := by
      intro u
      rw [set_attribute_raw_Null]
      rw [set_attribute_raw_Object name u [] (by simp [map_find])]
      simp [map_emplace, map_find, map_insert_ordered, map_assign]
    obtain ⟨a1, a2, a3, a4, a5⟩ := main [] (by simp [map_find])
    rw [hnull v]
    refine ⟨a1, a2, a3, a4, ?_⟩
    intro name2 hne
    rw [a5 name2 hne]
    simp [map_find, get_attribute_raw, find]
  | Single x => simp [type] at h
  | Tensor x => simp [type] at h
  | Block x => simp [type] at h
  | Array x => simp [type] at h

/-- C18 as amended, at an Object that holds the attribute `units` and a child. -/
theorem C18_attribute_round_trip_witness :
    (type (entry_Memory.Object [("@units", .Single (.string "m")), ("a", .Null)])
        = EntryType.Null ∨
      type (entry_Memory.Object [("@units", .Single (.string "m")), ("a", .Null)])
        = EntryType.Object) ∧
    (∀ x, deref (.Object [("@units", .Single (.string "m")), ("a", .Null)])
        (some (.key ("@" ++ "units"))) = some x → (type x).index < EntryType.Array.index) ∧
    get_attribute_raw "units"
      (set_attribute_raw "units" (.string "cm")
        (.Object [("@units", .Single (.string "m")), ("a", .Null)])).2 = .ok (.string "cm") :=
  ⟨Or.inr rfl,
   by
     intro x hx
     have hx1 : some (entry_Memory.Single (.string "m")) = some x := hx
     cases hx1
     decide,
   (C18_attribute_round_trip (.Object [("@units", .Single (.string "m")), ("a", .Null)])
      "units" (.string "cm") (.string "cm") (Or.inr rfl)
      (by
        intro x hx
        have hx1 : some (entry_Memory.Single (.string "m")) = some x := hx
        cases hx1
        decide)).2.1⟩

theorem starts_with_marker_append (name : String) :
    starts_with_marker ("@" ++ name) = true := by
  have h : ("@" ++ name).data = '@' :: name.data := by
    simp [String.data_append]
  simp [starts_with_marker, h]

theorem substr_from_1_append (name : String) : substr_from_1 ("@" ++ name) = name := by
  have h : ("@" ++ name).data = '@' :: name.data := by
    simp [String.data_append]
  simp [substr_from_1, h]

theorem marker_split (k : String) (h : starts_with_marker k = true) :
    "@" ++ substr_from_1 k = k := by
  apply String.ext
  unfold starts_with_marker at h
  cases hk : k.data with
  | nil => simp [hk] at h
  | cons c tl =>
    simp only [hk, beq_iff_eq] at h
    simp [String.data_append, substr_from_1, hk, h]

theorem attributes_loop_spec (m : List (String × entry_Memory))
    (acc : List (String × single_t))
    (H : ∀ k x, (k, x) ∈ m → starts_with_marker k = true → ∃ v, x = entry_Memory.Single v) :
    ∃ res, attributes_loop m acc = .ok res ∧
      ((acc.map Prod.fst).Nodup → (res.map Prod.fst).Nodup) ∧
      ∀ name, map_find name res
        = (match map_find name acc with
           | some u => some u
           | none => (map_find ("@" ++ name) m).bind (fun x => (get_single x).toOption)) := by
  induction m generalizing acc with
  | nil =>
    refine ⟨acc, rfl, id, ?_⟩
    intro name
    cases map_find name acc <;> simp [map_find]
  | cons p rest ih =>
    obtain ⟨k, x⟩ := p
    have Hrest : ∀ k2 x2, (k2, x2) ∈ rest → starts_with_marker k2 = true →
        ∃ v, x2 = entry_Memory.Single v :=
      fun k2 x2 hmem => H k2 x2 (List.mem_cons_of_mem _ hmem)
    by_cases hmk : starts_with_marker k = true
    · obtain ⟨v, rfl⟩ := H k x (List.mem_cons_self _ _) hmk
      obtain ⟨res, h1, h2, h3⟩ := ih (map_emplace (substr_from_1 k) v acc) Hrest
      refine ⟨res, ?_, ?_, ?_⟩
      · simp [attributes_loop, hmk, get_single, h1]
      · intro hacc
        exact h2 (map_emplace_keys_nodup _ _ _ hacc)
      · intro name
        rw [h3 name]
        by_cases hn : name = substr_from_1 k
        · have hk : "@" ++ name = k := by rw [hn]; exact marker_split k hmk
          subst hn
          cases ha : map_find (substr_from_1 k) acc with
          | some u => simp [map_emplace, ha]
          | none =>
            rw [map_find_emplace_absent _ _ _ ha]
            simp [map_find, hk, get_single, Except.toOption]
        · have hk : "@" ++ name ≠ k := by
            intro hh
            apply hn
            rw [← hh, substr_from_1_append]
          rw [map_find_emplace_other _ _ _ _ hn]
          simp [map_find, hk]
    · obtain ⟨res, h1, h2, h3⟩ := ih acc Hrest
      refine ⟨res, ?_, h2, ?_⟩
      · simp [attributes_loop, hmk, h1]
      · intro name
        rw [h3 name]
        have hk : "@" ++ name ≠ k := by
          intro hh
          apply hmk
          rw [← hh]
          exact starts_with_marker_append name
        simp [map_find, hk]

/-- C19 fails as stated: on an Object whose entry under `"@a"` is Null (as
`insert("@a")` leaves it) `attributes()` throws instead of returning a map. -/
theorem C19_counterexample :
    (EntryImplement.insert "@a" create).2 = .Object [("@a", .Null)] ∧
    attributes (.Object [("@a", .Null)]) = .error (.runtime_error "This is not Single!") ∧
    attributes (.Object [("b", .Null), ("@a", .Tensor ⟨1, [1], [5]⟩)])
      = .error (.runtime_error "This is not Single!") := by
  refine ⟨rfl, rfl, rfl⟩

/-- C19 as amended: on an Object entry in which every entry whose key begins with
`'@'` holds a Single, `attributes()` returns a map with unique names in which `name`
has the value `v` exactly when the entry stored under `'@' + name` is the Single `v`;
on an entry that is no Object it returns the empty map. -/
theorem C19_attributes_of_object (m : List (String × entry_Memory)) (e : Entry)
    (H : ∀ k x, (k, x) ∈ m → starts_with_marker k = true → ∃ v, x = entry_Memory.Single v)
    (he : type e ≠ EntryType.Object) :
    (∃ res, attributes (.Object m) = .ok res ∧
      (res.map Prod.fst).Nodup ∧
      ∀ name v, map_find name res = some v ↔
        deref (.Object m) (some (.key ("@" ++ name))) = some (.Single v)) ∧
    attributes e = .ok [] := by
  constructor
  · obtain ⟨res, h1, h2, h3⟩ := attributes_loop_spec m [] H
    refine ⟨res, h1, h2 (by simp), ?_⟩
    intro name v
    rw [h3 name, deref_key_Object]
    simp only [map_find]
    cases hf : map_find ("@" ++ name) m with
    | none => simp
    | some x =>
      cases x with
      | Single u => simp [get_single, Except.toOption]
      | Null => simp [get_single, Except.toOption]
      | Tensor u => simp [get_single, Except.toOption]
      | Block u => simp [get_single, Except.toOption]
      | Array u => simp [get_single, Except.toOption]
      | Object u => simp [get_single, Except.toOption]
  · cases e with
    | Object u => simp [type] at he
    | Null => rfl
    | Single u => rfl
    | Tensor u => rfl
    | Block u => rfl
    | Array u => rfl

/-- C19 as amended, at an Object with two attributes and one child, and at an
Array. -/
theorem C19_attributes_of_object_witness :
    (∀ k x, (k, x) ∈ [("@a", entry_Memory.Single (.int 1)), ("@b", .Single (.string "m")),
        ("c", .Null)] → starts_with_marker k = true → ∃ v, x = entry_Memory.Single v) ∧
    type (entry_Memory.Array []) ≠ EntryType.Object ∧
    attributes (.Object [("@a", .Single (.int 1)), ("@b", .Single (.string "m")), ("c", .Null)])
      = .ok [("a", .int 1), ("b", .string "m")] ∧
    attributes (.Array []) = .ok [] :=
  ⟨by
     intro k x hmem hk
     simp only [List.mem_cons, Prod.mk.injEq, List.mem_singleton, List.not_mem_nil,
       or_false] at hmem
     rcases hmem with ⟨_, rfl⟩ | ⟨_, rfl⟩ | ⟨rfl, rfl⟩
     · exact ⟨_, rfl⟩
     · exact ⟨_, rfl⟩
     · exact absurd hk (by decide),
   by decide, rfl,
   (C19_attributes_of_object
      [("@a", .Single (.int 1)), ("@b", .Single (.string "m")), ("c", .Null)] (.Array [])
      (by
        intro k x hmem hk
        simp only [List.mem_cons, Prod.mk.injEq, List.mem_singleton, List.not_mem_nil,
          or_false] at hmem
        rcases hmem with ⟨_, rfl⟩ | ⟨_, rfl⟩ | ⟨rfl, rfl⟩
        · exact ⟨_, rfl⟩
        · exact ⟨_, rfl⟩
        · exact absurd hk (by decide))
      (by decide)).2⟩

/-! ### Iterator proxies -/

theorem IteratorProxy.copy_eq (p : IteratorProxy) : p.copy = p := by
  cases p <;> rfl

/-- C21 (the code at the failing inputs): `Iterator c(it);` with a non-const lvalue
`it` that wraps a proxy runs the variadic constructor, which copies the proxy and then
calls `next()` on the copy: whatever the current element of `it` is, the current
element of `c` is what that `next()` returns.  Over a container of the elements 10, 20,
30 the iterator built from `begin()` has the current element 10 and its copy has the
current element 20, so `c == it` is false, and the next result of `c` is 30 where
the next results of `it` are 20 and 30.  A shared-pointer iterator at 100 has
a copy at 101.  The declared copy constructor, which a `const` argument selects, gives
an iterator in the state of the original. -/
theorem C21_lvalue_copy_is_one_ahead (p : IteratorProxy) (cur : pointer) :
    Iterator.lvalue_copy_construct IteratorProxy.copy IteratorProxy.next ⟨some p, cur⟩
      = Iterator.construct IteratorProxy.next p ∧
    Iterator.construct IteratorProxy.next (.direct [10, 20, 30] 0)
      = .ok ⟨some (.direct [10, 20, 30] 1), some 10⟩ ∧
    Iterator.lvalue_copy_construct IteratorProxy.copy IteratorProxy.next
        (⟨some (.direct [10, 20, 30] 1), some 10⟩ : Iterator IteratorProxy Nat)
      = .ok ⟨some (.direct [10, 20, 30] 2), some 20⟩ ∧
    Iterator.eq (⟨some (.direct [10, 20, 30] 2), some 20⟩ : Iterator IteratorProxy Nat)
        (⟨some (.direct [10, 20, 30] 1), some 10⟩ : Iterator IteratorProxy Nat) = false ∧
    (Iterator.nexts IteratorProxy.next 1
        (⟨some (.direct [10, 20, 30] 2), some 20⟩ : Iterator IteratorProxy Nat)).1
      = [.ok (some 30)] ∧
    (Iterator.nexts IteratorProxy.next 2
        (⟨some (.direct [10, 20, 30] 1), some 10⟩ : Iterator IteratorProxy Nat)).1
      = [.ok (some 20), .ok (some 30)] ∧
    Iterator.lvalue_copy_construct IteratorProxy.copy IteratorProxy.next
        (⟨some (.shared (some 100) 3 1), some 100⟩ : Iterator IteratorProxy Nat)
      = .ok ⟨some (.shared (some 100) 3 2), some 101⟩ ∧
    Iterator.copy_construct IteratorProxy.copy (⟨some p, cur⟩ : Iterator IteratorProxy Nat)
      = .ok ⟨some p, cur⟩ := by
  refine ⟨?_, rfl, rfl, rfl, rfl, rfl, rfl, ?_⟩
  · simp [Iterator.lvalue_copy_construct, IteratorProxy.copy_eq]
  · simp [Iterator.copy_construct, IteratorProxy.copy_eq]

/-- C22 (the code at the failing inputs): over a container of the elements 10, 20, 30
an iterator built from `begin()` has the current element 10 and `next()` gives 20; the
`Iterator<const T>` built from it has the current element 20 and its `next()` gives
30.  A shared-pointer iterator over three elements at 100 that was advanced once has
the current element 101; the `Iterator<const T>` built from it has the current element
100. -/
theorem C22_const_copy_moves :
    Iterator.construct IteratorProxy.next (.direct [10, 20, 30] 0)
      = .ok ⟨some (.direct [10, 20, 30] 1), some 10⟩ ∧
    Iterator.const_construct IteratorProxy.const_copy IteratorProxy.next
        (⟨some (.direct [10, 20, 30] 1), some 10⟩ : Iterator IteratorProxy Nat)
      = .ok ⟨some (.direct [10, 20, 30] 2), some 20⟩ ∧
    (Iterator.next IteratorProxy.next
        (⟨some (.direct [10, 20, 30] 1), some 10⟩ : Iterator IteratorProxy Nat)).1
      = .ok (some 20) ∧
    (Iterator.next IteratorProxy.next
        (⟨some (.direct [10, 20, 30] 2), some 20⟩ : Iterator IteratorProxy Nat)).1
      = .ok (some 30) ∧
    (Iterator.next IteratorProxy.next
        (⟨some (.shared (some 100) 3 1), some 100⟩ : Iterator IteratorProxy Nat)).2
      = ⟨some (.shared (some 100) 3 2), some 101⟩ ∧
    Iterator.const_construct IteratorProxy.const_copy IteratorProxy.next
        (⟨some (.shared (some 100) 3 2), some 101⟩ : Iterator IteratorProxy Nat)
      = .ok ⟨some (.shared (some 100) 3 1), some 100⟩ := by
  refine ⟨rfl, rfl, rfl, rfl, rfl, rfl⟩

theorem Iterator.next_direct_in_range (pre rest : List Nat) (a : Nat) (cur : pointer) :
    Iterator.next IteratorProxy.next ⟨some (.direct (pre ++ a :: rest) pre.length), cur⟩
      = (.ok (some a), ⟨some (.direct (pre ++ a :: rest) (pre.length + 1)), some a⟩) := by
  have h : (pre ++ a :: rest).get? pre.length = some a := by
    rw [List.get?_eq_getElem?, List.getElem?_append_right (Nat.le_refl _)]
    simp
  simp only [Iterator.next, IteratorProxy.next, h]

theorem Iterator.nexts_direct (suf pre : List Nat) (cur : pointer) :
    (Iterator.nexts IteratorProxy.next suf.length
        ⟨some (.direct (pre ++ suf) pre.length), cur⟩).1
      = suf.map (fun a => .ok (some a)) ∧
    (Iterator.nexts IteratorProxy.next suf.length
        ⟨some (.direct (pre ++ suf) pre.length), cur⟩).2.m_proxy_
      = some (.direct (pre ++ suf) (pre.length + suf.length)) := by
  induction suf generalizing pre cur with
  | nil => exact ⟨rfl, rfl⟩
  | cons a rest ih =>
    have h := ih (pre ++ [a]) (some a)
    simp only [List.append_assoc, List.singleton_append, List.length_append,
      List.length_singleton] at h
    simp only [List.length_cons, Iterator.nexts, Iterator.next_direct_in_range, List.map_cons]
    refine ⟨by rw [h.1], ?_⟩
    rw [h.2]
    simp [Nat.add_assoc, Nat.add_comm 1]

theorem Iterator.next_fst_of_proxy {P A : Type} (pnext : P → Except Exn (Option A) × P)
    (it : Iterator P A) (p : P) (h : it.m_proxy_ = some p) :
    (Iterator.next pnext it).1 = (pnext p).1 := by
  obtain ⟨pr, c⟩ := it
  simp only at h
  subst h
  simp only [Iterator.next]
  generalize pnext p = q
  obtain ⟨r, p1⟩ := q
  cases r <;> rfl

theorem Iterator.nexts_shared (m b n k : Nat) (cur : pointer) (h : k + m ≤ n + 1) :
    (Iterator.nexts IteratorProxy.next m ⟨some (.shared (some b) n k), cur⟩).1
      = (List.range m).map (fun j => .ok (some (b + k + j))) ∧
    (Iterator.nexts IteratorProxy.next m ⟨some (.shared (some b) n k), cur⟩).2.m_proxy_
      = some (.shared (some b) n (k + m)) := by
  induction m generalizing k cur with
  | zero => exact ⟨rfl, rfl⟩
  | succ m ih =>
    have hk : k ≤ n := by omega
    have hs : Iterator.next IteratorProxy.next ⟨some (.shared (some b) n k), cur⟩
        = (.ok (some (b + k)), ⟨some (.shared (some b) n (k + 1)), some (b + k)⟩) := by
      simp [Iterator.next, IteratorProxy.next, hk]
    have h2 := ih (k + 1) (some (b + k)) (by omega)
    simp only [Iterator.nexts, hs]
    refine ⟨?_, ?_⟩
    · rw [h2.1, List.range_succ_eq_map]
      simp [Function.comp_def, Nat.add_assoc, Nat.add_comm 1]
    · rw [h2.2]
      simp [Nat.add_assoc, Nat.add_comm 1]

/-- C23 fails as stated: over a container of the one element 10 the iterator built
from `begin()` has the current element 10, and the `next()` after it does not return
the null pointer.  Over a shared pointer to one element at 100 the iterator has the
current element 100 and the `next()` after it returns 101, the address past the
element. -/
theorem C23_counterexample :
    Iterator.construct IteratorProxy.next (.direct [10] 0)
      = .ok ⟨some (.direct [10] 1), some 10⟩ ∧
    (Iterator.next IteratorProxy.next
        (⟨some (.direct [10] 1), some 10⟩ : Iterator IteratorProxy Nat)).1 ≠ .ok none ∧
    Iterator.construct IteratorProxy.next (.shared (some 100) 1 0)
      = .ok ⟨some (.shared (some 100) 1 1), some 100⟩ ∧
    (Iterator.next IteratorProxy.next
        (⟨some (.shared (some 100) 1 1), some 100⟩ : Iterator IteratorProxy Nat)).1
      = .ok (some 101) := by
  refine ⟨rfl, ?_, rfl, rfl⟩
  have e : (Iterator.next IteratorProxy.next
      (⟨some (.direct [10] 1), some 10⟩ : Iterator IteratorProxy Nat)).1
      = .error (.undefined_behaviour "dereference of the end position") := rfl
  rw [e]
  exact fun h => Except.noConfusion h

/-- C23 as amended: an iterator whose direct proxy stands at a position of a
container yields, in as many calls of `next()` as there are elements from that
position on, these elements in order, and an iterator over a shared pointer to `n`
elements yields in `n` calls the addresses of the `n` elements in order; none of these
results is the null pointer.  The constructor makes the first of these calls and keeps
its result as the current element.  The call that follows the last element does not
return the null pointer: the proxies hold no end position, and the shared-pointer
proxy returns the address past the last element. -/
theorem C23_next_yields_the_elements (pre suf rest : List Nat) (a b n : Nat)
    (cur : pointer) :
    (Iterator.nexts IteratorProxy.next suf.length
        ⟨some (.direct (pre ++ suf) pre.length), cur⟩).1
      = suf.map (fun x => .ok (some x)) ∧
    (Iterator.next IteratorProxy.next
        (Iterator.nexts IteratorProxy.next suf.length
          ⟨some (.direct (pre ++ suf) pre.length), cur⟩).2).1 ≠ .ok none ∧
    Iterator.construct IteratorProxy.next (.direct (pre ++ a :: rest) pre.length)
      = .ok ⟨some (.direct (pre ++ a :: rest) (pre.length + 1)), some a⟩ ∧
    (Iterator.nexts IteratorProxy.next n ⟨some (.shared (some b) n 0), cur⟩).1
      = (List.range n).map (fun j => .ok (some (b + j))) ∧
    (Iterator.next IteratorProxy.next
        (Iterator.nexts IteratorProxy.next n ⟨some (.shared (some b) n 0), cur⟩).2).1
      = .ok (some (b + n)) ∧
    Iterator.construct IteratorProxy.next (.shared (some b) n 0)
      = .ok ⟨some (.shared (some b) n 1), some b⟩ := by
  have hd := Iterator.nexts_direct suf pre cur
  have hs := Iterator.nexts_shared n b n 0 cur (by omega)
  refine ⟨hd.1, ?_, ?_, ?_, ?_, ?_⟩
  · rw [Iterator.next_fst_of_proxy _ _ _ hd.2]
    have hg : (pre ++ suf).get? (pre.length + suf.length) = none := by
      rw [List.get?_eq_none]
      simp
    simp only [IteratorProxy.next, hg]
    exact fun h => Except.noConfusion h
  · have h : (pre ++ a :: rest).get? pre.length = some a := by
      rw [List.get?_eq_getElem?, List.getElem?_append_right (Nat.le_refl _)]
      simp
    simp only [Iterator.construct, IteratorProxy.next, h]
  · simpa using hs.1
  · rw [Iterator.next_fst_of_proxy _ _ _ hs.2]
    simp [IteratorProxy.next]
  · simp [Iterator.construct, IteratorProxy.next]

/-- C24: when the projection of a mapped proxy throws at the current position,
`next()` returns the null pointer and the proxy is as before the call; `n` calls of
`next()` on an iterator that wraps the proxy all return the null pointer and leave the
proxy at that position.  The proxy over an inner iterator returns the null pointer and
keeps its state on every call. -/
theorem C24_mapper_failure_is_end (i n : Nat) (f : Nat → Except Exn pointer) (x : Exn)
    (cur : pointer) (q : IteratorProxy_Iterator) (hf : f i = .error x)
    (hx : ∀ w, x ≠ .undefined_behaviour w) :
    IteratorProxy.next (.mapped i f) = (.ok none, .mapped i f) ∧
    (Iterator.nexts IteratorProxy.next n ⟨some (.mapped i f), cur⟩).1
      = List.replicate n (.ok none) ∧
    (Iterator.nexts IteratorProxy.next n ⟨some (.mapped i f), cur⟩).2.m_proxy_
      = some (.mapped i f) ∧
    q.next = (.ok none, q) := by
  have h1 : IteratorProxy.next (.mapped i f) = (.ok none, .mapped i f) := by
    cases x with
    | undefined_behaviour w => exact absurd rfl (hx w)
    | runtime_error m => simp [IteratorProxy.next, hf]
    | out_of_range m => simp [IteratorProxy.next, hf]
  have h2 : ∀ (k : Nat) (c : pointer),
      Iterator.nexts IteratorProxy.next k ⟨some (.mapped i f), c⟩
        = (List.replicate k (.ok none),
           ⟨some (.mapped i f), if k = 0 then c else none⟩) := by
    intro k
    induction k with
    | zero => intro c; rfl
    | succ k ih =>
      intro c
      simp only [Iterator.nexts, Iterator.next, h1, ih, List.replicate_succ]
      cases k <;> simp
  refine ⟨h1, ?_, ?_, rfl⟩
  · rw [h2]
  · rw [h2]

/-- C24 at a projection that throws at position 1. -/
theorem C24_mapper_failure_is_end_witness :
    ((fun k => if k = 1 then Except.error (Exn.runtime_error "bad element")
        else Except.ok (some (10 * k))) : Nat → Except Exn pointer) 1
      = .error (.runtime_error "bad element") ∧
    (∀ w, Exn.runtime_error "bad element" ≠ .undefined_behaviour w) ∧
    IteratorProxy.next (.mapped 1 (fun k => if k = 1 then .error (.runtime_error "bad element")
        else .ok (some (10 * k))))
      = (.ok none, .mapped 1 (fun k => if k = 1 then .error (.runtime_error "bad element")
        else .ok (some (10 * k)))) :=
  ⟨rfl, fun _ h => Exn.noConfusion h,
   (C24_mapper_failure_is_end 1 3
      (fun k => if k = 1 then .error (.runtime_error "bad element") else .ok (some (10 * k)))
      (.runtime_error "bad element") none
      ⟨⟨none, none⟩, fun a => .ok (some a)⟩ rfl (fun _ h => Exn.noConfusion h)).1⟩

/-- C25 (the code at the failing input): `next()` of the proxy over an inner iterator
returns the null pointer and leaves the inner iterator where it was, whatever the
inner iterator and the projection are.  Over an inner iterator whose current element
is 10, with the identity as projection, the mapped iterator is built with a null
current element. -/
theorem C25_mapped_iterator_is_a_stub (inner : Iterator IteratorProxy Nat)
    (f : Nat → Except Exn pointer) :
    IteratorProxy_Iterator.next ⟨inner, f⟩ = (.ok none, ⟨inner, f⟩) ∧
    Iterator.to_bool (⟨some (.direct [10, 20] 1), some 10⟩ : Iterator IteratorProxy Nat)
      = true ∧
    Iterator.construct IteratorProxy_Iterator.next
        (⟨⟨some (.direct [10, 20] 1), some 10⟩, fun a => .ok (some a)⟩ : IteratorProxy_Iterator)
      = .ok ⟨some ⟨⟨some (.direct [10, 20] 1), some 10⟩, fun a => .ok (some a)⟩, none⟩ := by
  refine ⟨rfl, rfl, rfl⟩

/-! ### The older in-memory backend and the shape of tensors -/

/-- C29 fails as stated: on an entry that holds the integer 7, `push_back(nullptr)`
returns normally; afterwards the entry is an array with one element and the integer is
gone.  The same happens to a freshly constructed entry, which holds `false`. -/
theorem C29_counterexample :
    EntryPolicy.push_back none (.mk [] (.int 7))
      = (.ok entry_in_memory.create, .mk [] (.entry_array [entry_in_memory.create])) ∧
    (EntryPolicy.push_back none (.mk [] (.int 7))).2.data ≠ .int 7 ∧
    EntryPolicy.push_back none entry_in_memory.create
      = (.ok entry_in_memory.create, .mk [] (.entry_array [entry_in_memory.create])) := by
  refine ⟨rfl, ?_, rfl⟩
  intro h
  cases h

/-- C29 as amended: on an entry that holds a scalar (`bool`, `int`, `double` or
`string`), `push_back(p)` throws nothing: it returns `p`, or a new entry when `p` is
null, and afterwards the entry is an array whose only element is the returned entry;
the scalar is no longer stored and the attributes are as before. -/
theorem C29_push_back_replaces_scalar (attrs : List (String × single_t))
    (d : entry_in_memory_data) (q : entry_in_memory) (h : d.index < 4) :
    EntryPolicy.push_back (some q) (.mk attrs d) = (.ok q, .mk attrs (.entry_array [q])) ∧
    EntryPolicy.push_back none (.mk attrs d)
      = (.ok EntryPolicy.convert_to_Null,
         .mk attrs (.entry_array [EntryPolicy.convert_to_Null])) ∧
    (EntryPolicy.push_back (some q) (.mk attrs d)).2.data.index = 4 := by
  cases d with
  | bool b => exact ⟨rfl, rfl, rfl⟩
  | int i => exact ⟨rfl, rfl, rfl⟩
  | double x => exact ⟨rfl, rfl, rfl⟩
  | string x => exact ⟨rfl, rfl, rfl⟩
  | entry_array xs => simp [entry_in_memory_data.index] at h
  | entry_table m => simp [entry_in_memory_data.index] at h

/-- C29 as amended, at an entry that holds a string and has one attribute. -/
theorem C29_push_back_replaces_scalar_witness :
    (entry_in_memory_data.string "s").index < 4 ∧
    EntryPolicy.push_back (some (.mk [] (.int 1))) (.mk [("u", .string "m")] (.string "s"))
      = (.ok (.mk [] (.int 1)), .mk [("u", .string "m")] (.entry_array [.mk [] (.int 1)])) :=
  ⟨by decide,
   (C29_push_back_replaces_scalar [("u", .string "m")] (.string "s") (.mk [] (.int 1))
      (by decide)).1⟩

/-- C30 fails as stated: a tensor of shape 2 x 2 with elements of 8 bytes and a buffer
of one byte, and a block of the same kind, are not self-consistent, and `set_tensor`
and `set_block` accept them on a fresh entry. -/
theorem C30_counterexample :
    tensor_t.consistent ⟨8, [2, 2], [0]⟩ = false ∧
    set_tensor ⟨8, [2, 2], [0]⟩ create = (.ok (), .Tensor ⟨8, [2, 2], [0]⟩) ∧
    block_t.consistent ⟨8, [2, 2], [0]⟩ = false ∧
    set_block ⟨8, [2, 2], [0]⟩ create = (.ok (), .Block ⟨8, [2, 2], [0]⟩) := by
  refine ⟨by decide, rfl, by decide, rfl⟩

/-- C30 as amended: on an entry whose tag is below Array, `set_tensor` and `set_block`
accept every value, self-consistent or not, and store it as given: `get_tensor` and
`get_block` return it afterwards. -/
theorem C30_setters_do_not_validate (e : Entry) (t : tensor_t) (b : block_t)
    (h : (type e).index < EntryType.Array.index) :
    (set_tensor t e).1 = .ok () ∧
    get_tensor (set_tensor t e).2 = .ok t ∧
    (set_block b e).1 = .ok () ∧
    get_block (set_block b e).2 = .ok b := by
  simp [set_tensor, set_block, h, get_tensor, get_block]

/-- C30 as amended, at a fresh entry and a tensor that is not self-consistent. -/
theorem C30_setters_do_not_validate_witness :
    (type create).index < EntryType.Array.index ∧
    tensor_t.consistent ⟨8, [2, 2], [0]⟩ = false ∧
    get_tensor (set_tensor ⟨8, [2, 2], [0]⟩ create).2 = .ok ⟨8, [2, 2], [0]⟩ :=
  ⟨by decide, by decide,
   (C30_setters_do_not_validate create ⟨8, [2, 2], [0]⟩ ⟨1, [], []⟩ (by decide)).2.1⟩

/-! ### Merge of two values -/

open db.NodeObject

theorem map_find_append {α : Type} (k : String) (x y : List (String × α)) :
    map_find k (x ++ y) = (match map_find k x with
                           | some v => some v
                           | none => map_find k y) := by
  induction x with
  | nil => rfl
  | cons p rest ih =>
    obtain ⟨k1, v⟩ := p
    by_cases hk : k = k1
    · simp [map_find, hk]
    · simp [map_find, hk, ih]

theorem map_find_filter_key {α : Type} (k : String) (f : String → Bool)
    (m : List (String × α)) :
    map_find k (m.filter (fun p => f p.1)) = if f k then map_find k m else none := by
  induction m with
  | nil => simp [map_find]
  | cons p rest ih =>
    obtain ⟨k1, v⟩ := p
    by_cases hf : f k1 = true
    · by_cases hk : k = k1
      · subst hk
        simp [List.filter_cons, hf, map_find]
      · simp [List.filter_cons, hf, map_find, hk, ih]
    · by_cases hk : k = k1
      · subst hk
        simp only [Bool.not_eq_true] at hf
        simp [List.filter_cons, hf, ih]
      · simp only [Bool.not_eq_true] at hf
        simp [List.filter_cons, hf, map_find, hk, ih]

theorem map_find_of_mem_nodup {α : Type} (k : String) (v : α) (m : List (String × α))
    (hu : (m.map Prod.fst).Nodup) (hm : (k, v) ∈ m) : map_find k m = some v := by
  induction m with
  | nil => simp at hm
  | cons p rest ih =>
    obtain ⟨k1, v1⟩ := p
    simp only [List.map_cons, List.nodup_cons] at hu
    rcases List.mem_cons.1 hm with h | h
    · cases h
      simp [map_find]
    · have hne : k ≠ k1 := by
        intro h2
        subst h2
        exact hu.1 (List.mem_map.2 ⟨(k, v), h, rfl⟩)
      simp [map_find, hne, ih hu.2 h]

theorem mem_of_map_find {α : Type} (k : String) (v : α) (m : List (String × α))
    (h : map_find k m = some v) : (k, v) ∈ m := by
  induction m with
  | nil => simp [map_find] at h
  | cons p rest ih =>
    obtain ⟨k1, v1⟩ := p
    by_cases hk : k = k1
    · subst hk
      simp only [map_find, if_true, Option.some.injEq] at h
      subst h
      exact List.mem_cons_self _ _
    · simp only [map_find, hk, if_false] at h
      exact List.mem_cons_of_mem _ (ih h)

theorem unique_keys_children_mem (m : List (String × db.type_union)) (k : String)
    (v : db.type_union) (h : unique_keys_children m = true) (hm : (k, v) ∈ m) :
    unique_keys v = true := by
  induction m with
  | nil => simp at hm
  | cons p rest ih =>
    obtain ⟨k1, v1⟩ := p
    simp only [unique_keys_children, Bool.and_eq_true] at h
    rcases List.mem_cons.1 hm with h1 | h1
    · cases h1
      exact h.1
    · exact ih h.2 h1

theorem no_array_element_children_mem (m : List (String × db.type_union)) (k : String)
    (v : db.type_union) (h : no_array_element_children m = true) (hm : (k, v) ∈ m) :
    no_array_element v = true := by
  induction m with
  | nil => simp at hm
  | cons p rest ih =>
    obtain ⟨k1, v1⟩ := p
    simp only [no_array_element_children, Bool.and_eq_true] at h
    rcases List.mem_cons.1 hm with h1 | h1
    · cases h1
      exact h.1
    · exact ih h.2 h1

theorem merge_children_append (x y b : List (String × db.type_union)) :
    merge_children (x ++ y) b = merge_children x b ++ merge_children y b := by
  induction x with
  | nil => rfl
  | cons p rest ih =>
    obtain ⟨k, v⟩ := p
    simp [merge_children, ih]

theorem map_find_merge_children_isSome (k : String) (a b : List (String × db.type_union)) :
    (map_find k (merge_children a b)).isSome = (map_find k a).isSome := by
  induction a with
  | nil => rfl
  | cons p rest ih =>
    obtain ⟨k1, v⟩ := p
    by_cases hk : k = k1
    · simp [merge_children, map_find, hk]
    · simp [merge_children, map_find, hk, ih]

/-- The keys of `other` that the merged children lack: none. -/
theorem merge_filter_nil (a b : List (String × db.type_union)) :
    b.filter (fun p => (map_find p.1
        (merge_children a b ++ b.filter (fun q => (map_find q.1 a).isNone))).isNone) = [] := by
  rw [List.filter_eq_nil_iff]
  intro p hp
  obtain ⟨k, w⟩ := p
  simp only [Bool.not_eq_true, Option.not_isSome, Option.isNone_iff_eq_none]
  intro hnone
  rw [map_find_append] at hnone
  cases h1 : map_find k (merge_children a b) with
  | some v => simp [h1] at hnone
  | none =>
    simp only [h1] at hnone
    have h2 : (map_find k a).isSome = false := by
      rw [← map_find_merge_children_isSome k a b, h1]
      rfl
    have h3 : map_find k a = none := by
      cases h4 : map_find k a with
      | none => rfl
      | some _ => simp [h4] at h2
    rw [map_find_filter_key k (fun key => (map_find key a).isNone) b] at hnone
    simp only [h3, Option.isNone_none, if_true] at hnone
    have := (map_find_eq_none_iff k b).1 hnone
    exact this (List.mem_map.2 ⟨(k, w), hp, rfl⟩)
theorem unique_keys_Object (b : List (String × db.type_union))
    (h : unique_keys (.Object b) = true) :
    (b.map Prod.fst).Nodup ∧ unique_keys_children b = true := by
  simpa [unique_keys] using h

mutual

theorem merge_self :
    ∀ (w : db.type_union), unique_keys w = true → no_array_element w = true → merge w w = w
  | .Empty, _, _ => rfl
  | .Element _, _, _ => rfl
  | .Array xs, _, hn => by
    have hx : xs = [] := by simpa [no_array_element] using hn
    subst hx
    rfl
  | .Object b, hu, hn => by
    obtain ⟨hnd, huc⟩ := unique_keys_Object b hu
    have hnc : no_array_element_children b = true := by simpa [no_array_element] using hn
    have h1 : merge_children b b = b :=
      merge_children_self b b (fun k v hm => map_find_of_mem_nodup k v b hnd hm) huc hnc
    have h2 : b.filter (fun p => (map_find p.1 b).isNone) = [] := by
      rw [List.filter_eq_nil_iff]
      intro p hp
      obtain ⟨k, v⟩ := p
      simp [map_find_of_mem_nodup k v b hnd hp]
    simp [merge, h1, h2]

theorem merge_children_self :
    ∀ (c b : List (String × db.type_union)),
      (∀ k v, (k, v) ∈ c → map_find k b = some v) →
      unique_keys_children c = true → no_array_element_children c = true →
      merge_children c b = c
  | [], _, _, _, _ => rfl
  | (k, v) :: rest, b, hf, hu, hn => by
    simp only [unique_keys_children, Bool.and_eq_true] at hu
    simp only [no_array_element_children, Bool.and_eq_true] at hn
    have h1 := merge_self v hu.1 hn.1
    have h2 := merge_children_self rest b
      (fun k2 v2 hm => hf k2 v2 (List.mem_cons_of_mem _ hm)) hu.2 hn.2
    simp [merge_children, hf k v (List.mem_cons_self _ _), h1, h2]

end

theorem unique_keys_children_filter (f : String × db.type_union → Bool)
    (b : List (String × db.type_union)) (h : unique_keys_children b = true) :
    unique_keys_children (b.filter f) = true := by
  induction b with
  | nil => rfl
  | cons p rest ih =>
    obtain ⟨k, v⟩ := p
    simp only [unique_keys_children, Bool.and_eq_true] at h
    by_cases hf : f (k, v) = true
    · simp [List.filter_cons, hf, unique_keys_children, h.1, ih h.2]
    · simp [List.filter_cons, hf, ih h.2]

theorem no_array_element_children_filter (f : String × db.type_union → Bool)
    (b : List (String × db.type_union)) (h : no_array_element_children b = true) :
    no_array_element_children (b.filter f) = true := by
  induction b with
  | nil => rfl
  | cons p rest ih =>
    obtain ⟨k, v⟩ := p
    simp only [no_array_element_children, Bool.and_eq_true] at h
    by_cases hf : f (k, v) = true
    · simp [List.filter_cons, hf, no_array_element_children, h.1, ih h.2]
    · simp [List.filter_cons, hf, ih h.2]

mutual

theorem merge_idem :
    ∀ (x y : db.type_union), unique_keys y = true → no_array_element y = true →
      merge (merge x y) y = merge x y
  | .Object a, .Object b, hu, hn => by
    obtain ⟨hnd, huc⟩ := unique_keys_Object b hu
    have hnc : no_array_element_children b = true := by simpa [no_array_element] using hn
    have h1 : merge_children (merge_children a b) b = merge_children a b :=
      merge_children_idem a b huc hnc
    have h2 : merge_children (b.filter (fun p => (map_find p.1 a).isNone)) b
        = b.filter (fun p => (map_find p.1 a).isNone) := by
      apply merge_children_self
      · intro k v hm
        exact map_find_of_mem_nodup k v b hnd (List.mem_of_mem_filter hm)
      · exact unique_keys_children_filter _ b huc
      · exact no_array_element_children_filter _ b hnc
    simp only [merge]
    rw [merge_children_append, h1, h2, merge_filter_nil, List.append_nil]
  | .Array a, .Array b, _, hn => by
    have hx : b = [] := by simpa [no_array_element] using hn
    subst hx
    simp [merge]
  | .Object a, .Array b, hu, hn => by
    have e : merge (.Object a) (.Array b) = .Array b := rfl
    rw [e]
    exact merge_self _ hu hn
  | .Object a, .Empty, _, _ => rfl
  | .Object a, .Element _, _, _ => rfl
  | .Array a, .Object b, hu, hn => by
    have e : merge (.Array a) (.Object b) = .Object b := rfl
    rw [e]
    exact merge_self _ hu hn
  | .Array a, .Empty, _, _ => rfl
  | .Array a, .Element _, _, _ => rfl
  | .Empty, y, hu, hn => by
    have e : merge .Empty y = y := by cases y <;> rfl
    rw [e]
    exact merge_self _ hu hn
  | .Element v, y, hu, hn => by
    have e : merge (.Element v) y = y := by cases y <;> rfl
    rw [e]
    exact merge_self _ hu hn

theorem merge_children_idem :
    ∀ (a b : List (String × db.type_union)),
      unique_keys_children b = true → no_array_element_children b = true →
      merge_children (merge_children a b) b = merge_children a b
  | [], _, _, _ => rfl
  | (k, v) :: rest, b, hu, hn => by
    have h2 := merge_children_idem rest b hu hn
    cases hf : map_find k b with
    | none => simp [merge_children, hf, h2]
    | some w =>
      have hm := mem_of_map_find k w b hf
      have h1 := merge_idem v w (unique_keys_children_mem b k w hu hm)
        (no_array_element_children_mem b k w hn hm)
      simp [merge_children, hf, h1, h2]

end
/-! ### Patch and diff of two values -/

theorem map_find_put_self (k : String) (e : db.type_union)
    (m : List (String × db.type_union)) : map_find k (db.map_put k e m) = some e := by
  unfold db.map_put
  cases h : map_find k m with
  | some x => simp [map_find_assign_self, h]
  | none => simp [map_find_insert_ordered_self _ _ _ h]

theorem map_find_put_other (k k2 : String) (e : db.type_union)
    (m : List (String × db.type_union)) (h : k2 ≠ k) :
    map_find k2 (db.map_put k e m) = map_find k2 m := by
  unfold db.map_put
  cases map_find k m with
  | some x => simp [map_find_assign_other _ _ _ _ h]
  | none => simp [map_find_insert_ordered_other _ _ _ _ h]

theorem map_keys_assign {α : Type} (k : String) (e : α) (m : List (String × α)) :
    (map_assign k e m).map Prod.fst = m.map Prod.fst := by
  induction m with
  | nil => rfl
  | cons p rest ih =>
    obtain ⟨k1, v⟩ := p
    by_cases hk : k = k1
    · simp [map_assign, hk]
    · simp [map_assign, hk, ih]

theorem map_put_keys_nodup (k : String) (e : db.type_union)
    (m : List (String × db.type_union)) (hu : (m.map Prod.fst).Nodup) :
    ((db.map_put k e m).map Prod.fst).Nodup := by
  unfold db.map_put
  cases h : map_find k m with
  | some x => simpa [map_keys_assign] using hu
  | none =>
    have hk : k ∉ m.map Prod.fst := (map_find_eq_none_iff k m).1 h
    exact (map_keys_insert_ordered k e m).nodup_iff.2 (List.nodup_cons.2 ⟨hk, hu⟩)

theorem patch_children_keys_nodup (p a : List (String × db.type_union))
    (ha : (a.map Prod.fst).Nodup) : ((patch_children a p).map Prod.fst).Nodup := by
  induction p generalizing a with
  | nil => exact ha
  | cons q rest ih =>
    obtain ⟨k, w⟩ := q
    cases w with
    | Empty => exact ih _ (map_erase_keys_nodup k a ha)
    | Object c => exact ih _ (map_put_keys_nodup k _ a ha)
    | Array c => exact ih _ (map_put_keys_nodup k _ a ha)
    | Element c => exact ih _ (map_put_keys_nodup k _ a ha)

theorem map_find_patch_children (p a : List (String × db.type_union))
    (hp : (p.map Prod.fst).Nodup) (ha : (a.map Prod.fst).Nodup) (k : String) :
    map_find k (patch_children a p)
      = (match map_find k p with
         | none => map_find k a
         | some w => patch_value (map_find k a) w) := by
  induction p generalizing a with
  | nil => rfl
  | cons q rest ih =>
    obtain ⟨k1, w⟩ := q
    simp only [List.map_cons, List.nodup_cons] at hp
    by_cases hk : k = k1
    · subst hk
      have hr : map_find k rest = none := map_find_eq_none_of_not_mem k rest hp.1
      cases w with
      | Empty =>
        simp only [patch_children]
        rw [ih _ hp.2 (map_erase_keys_nodup k a ha), hr]
        simp [map_find, patch_value, map_find_erase_self k a ha]
      | Object c =>
        simp only [patch_children]
        rw [ih _ hp.2 (map_put_keys_nodup k _ a ha), hr]
        simp [map_find, patch_value, map_find_put_self]
      | Array c =>
        simp only [patch_children]
        rw [ih _ hp.2 (map_put_keys_nodup k _ a ha), hr]
        simp [map_find, patch_value, map_find_put_self]
      | Element c =>
        simp only [patch_children]
        rw [ih _ hp.2 (map_put_keys_nodup k _ a ha), hr]
        simp [map_find, patch_value, map_find_put_self]
    · cases w with
      | Empty =>
        simp only [patch_children]
        rw [ih _ hp.2 (map_erase_keys_nodup k1 a ha)]
        simp [map_find, hk, map_find_erase_other k1 k a hk]
      | Object c =>
        simp only [patch_children]
        rw [ih _ hp.2 (map_put_keys_nodup k1 _ a ha)]
        simp [map_find, hk, map_find_put_other k1 k _ a hk]
      | Array c =>
        simp only [patch_children]
        rw [ih _ hp.2 (map_put_keys_nodup k1 _ a ha)]
        simp [map_find, hk, map_find_put_other k1 k _ a hk]
      | Element c =>
        simp only [patch_children]
        rw [ih _ hp.2 (map_put_keys_nodup k1 _ a ha)]
        simp [map_find, hk, map_find_put_other k1 k _ a hk]
theorem diff_children_keys_sublist (a b : List (String × db.type_union)) :
    ((diff_children a b).map Prod.fst).Sublist (b.map Prod.fst) := by
  induction b with
  | nil => simp [diff_children]
  | cons q rest ih =>
    obtain ⟨k, w⟩ := q
    simp only [diff_children, List.map_append, List.map_cons]
    cases map_find k a with
    | none => simpa using ih
    | some v =>
      by_cases hc : db.NodeObject.compare v w = true
      · simpa [hc] using List.Sublist.cons k ih
      · simpa [hc] using ih

theorem map_find_diff_children (a b : List (String × db.type_union))
    (hb : (b.map Prod.fst).Nodup) (k : String) :
    map_find k (diff_children a b)
      = (match map_find k b with
         | none => none
         | some w =>
           (match map_find k a with
            | none => some w
            | some v => if db.NodeObject.compare v w then none else some (diff v w))) := by
  induction b with
  | nil => rfl
  | cons q rest ih =>
    obtain ⟨k1, w⟩ := q
    simp only [List.map_cons, List.nodup_cons] at hb
    simp only [diff_children]
    rw [map_find_append, ih hb.2]
    by_cases hk : k = k1
    · subst hk
      have hr : map_find k rest = none := map_find_eq_none_of_not_mem k rest hb.1
      cases ha : map_find k a with
      | none => simp [map_find]
      | some v =>
        by_cases hc : db.NodeObject.compare v w = true
        · simp [map_find, hc, hr]
        · simp [map_find, hc]
    · cases ha : map_find k1 a with
      | none => simp [map_find, hk]
      | some v =>
        by_cases hc : db.NodeObject.compare v w = true
        · simp [map_find, hc, hk]
        · simp [map_find, hc, hk]

theorem map_find_removed (a b : List (String × db.type_union)) (k : String) :
    map_find k ((a.filter (fun p => (map_find p.1 b).isNone)).map
        (fun p => (p.1, db.type_union.Empty)))
      = if (map_find k b).isNone then (map_find k a).map (fun _ => db.type_union.Empty)
        else none := by
  induction a with
  | nil => simp [map_find]
  | cons q rest ih =>
    obtain ⟨k1, v⟩ := q
    by_cases hf : (map_find k1 b).isNone = true
    · by_cases hk : k = k1
      · subst hk
        simp [List.filter_cons, hf, map_find]
      · simp [List.filter_cons, hf, map_find, hk, ih]
    · by_cases hk : k = k1
      · subst hk
        simp only [Bool.not_eq_true] at hf
        simp [List.filter_cons, hf, ih]
      · simp only [Bool.not_eq_true] at hf
        simp [List.filter_cons, hf, map_find, hk, ih]

theorem removed_keys_sublist (a b : List (String × db.type_union)) :
    (((a.filter (fun p => (map_find p.1 b).isNone)).map
        (fun p => (p.1, db.type_union.Empty))).map Prod.fst).Sublist (a.map Prod.fst) := by
  have h : ((a.filter (fun p => (map_find p.1 b).isNone)).map
      (fun p => (p.1, db.type_union.Empty))).map Prod.fst
      = (a.filter (fun p => (map_find p.1 b).isNone)).map Prod.fst := by
    simp [List.map_map, Function.comp]
  rw [h]
  exact (List.filter_sublist a).map Prod.fst

theorem diff_keys_nodup (a b : List (String × db.type_union))
    (ha : (a.map Prod.fst).Nodup) (hb : (b.map Prod.fst).Nodup) :
    ((diff_children a b ++ (a.filter (fun p => (map_find p.1 b).isNone)).map
        (fun p => (p.1, db.type_union.Empty))).map Prod.fst).Nodup := by
  rw [List.map_append, List.nodup_append]
  refine ⟨(diff_children_keys_sublist a b).nodup hb, (removed_keys_sublist a b).nodup ha, ?_⟩
  intro k h1 h2
  have hkb : k ∈ b.map Prod.fst := (diff_children_keys_sublist a b).subset h1
  have h3 : map_find k ((a.filter (fun p => (map_find p.1 b).isNone)).map
      (fun p => (p.1, db.type_union.Empty))) ≠ none := by
    intro h0
    exact ((map_find_eq_none_iff k _).1 h0) h2
  rw [map_find_removed] at h3
  cases hfb : map_find k b with
  | none => exact ((map_find_eq_none_iff k b).1 hfb) hkb
  | some w => simp [hfb] at h3

theorem compare_children_of_forall (c b : List (String × db.type_union))
    (h : ∀ k v, (k, v) ∈ c → ∃ w, map_find k b = some w ∧ db.NodeObject.compare v w = true) :
    compare_children c b = true := by
  induction c with
  | nil => rfl
  | cons q rest ih =>
    obtain ⟨k, v⟩ := q
    obtain ⟨w, hw, hc⟩ := h k v (List.mem_cons_self _ _)
    simp [compare_children, hw, hc,
      ih (fun k2 v2 hm => h k2 v2 (List.mem_cons_of_mem _ hm))]

theorem compare_Object_of_lookup (r b : List (String × db.type_union))
    (hr : (r.map Prod.fst).Nodup)
    (h1 : ∀ k v, map_find k r = some v →
      ∃ w, map_find k b = some w ∧ db.NodeObject.compare v w = true)
    (h2 : ∀ k w, (k, w) ∈ b → (map_find k r).isSome = true) :
    db.NodeObject.compare (.Object r) (.Object b) = true := by
  simp only [db.NodeObject.compare, Bool.and_eq_true, List.all_eq_true]
  refine ⟨?_, ?_⟩
  · apply compare_children_of_forall
    intro k v hm
    exact h1 k v (map_find_of_mem_nodup k v r hr hm)
  · intro p hp
    exact h2 p.1 p.2 hp

mutual

theorem compare_refl :
    ∀ (x : db.type_union), unique_keys x = true → db.NodeObject.compare x x = true
  | .Empty, _ => rfl
  | .Element v, _ => by simp [db.NodeObject.compare]
  | .Array xs, h => by
    have h1 : unique_keys_list xs = true := by simpa [unique_keys] using h
    simpa [db.NodeObject.compare] using compare_list_refl xs h1
  | .Object b, h => by
    obtain ⟨hnd, huc⟩ := unique_keys_Object b h
    simp only [db.NodeObject.compare, Bool.and_eq_true, List.all_eq_true]
    refine ⟨compare_children_refl b b
      (fun k v hm => map_find_of_mem_nodup k v b hnd hm) huc, ?_⟩
    intro p hp
    simp [map_find_of_mem_nodup p.1 p.2 b hnd hp]

theorem compare_list_refl :
    ∀ (xs : List db.type_union), unique_keys_list xs = true → compare_list xs xs = true
  | [], _ => rfl
  | x :: xs, h => by
    simp only [unique_keys_list, Bool.and_eq_true] at h
    simp [compare_list, compare_refl x h.1, compare_list_refl xs h.2]

theorem compare_children_refl :
    ∀ (c b : List (String × db.type_union)),
      (∀ k v, (k, v) ∈ c → map_find k b = some v) →
      unique_keys_children c = true → compare_children c b = true
  | [], _, _, _ => rfl
  | (k, v) :: rest, b, hf, h => by
    simp only [unique_keys_children, Bool.and_eq_true] at h
    have h1 := compare_refl v h.1
    have h2 := compare_children_refl rest b
      (fun k2 v2 hm => hf k2 v2 (List.mem_cons_of_mem _ hm)) h.2
    simp [compare_children, hf k v (List.mem_cons_self _ _), h1, h2]

end
theorem no_null_value_children_mem (m : List (String × db.type_union)) (k : String)
    (w : db.type_union) (h : no_null_value_children m = true) (hm : (k, w) ∈ m) :
    w ≠ .Empty ∧ no_null_value w = true := by
  induction m with
  | nil => simp at hm
  | cons p rest ih =>
    obtain ⟨k1, v1⟩ := p
    simp only [no_null_value_children, Bool.and_eq_true] at h
    rcases List.mem_cons.1 hm with h1 | h1
    · cases h1
      cases w with
      | Empty => simp at h
      | Object c => exact ⟨by simp, h.1⟩
      | Array c => exact ⟨by simp, h.1⟩
      | Element c => exact ⟨by simp, h.1⟩
    · exact ih h.2 h1

theorem diff_ne_Empty (v w : db.type_union) (h : w ≠ .Empty) : diff v w ≠ .Empty := by
  cases v <;> cases w <;> simp_all [diff]

theorem patch_value_of_ne_Empty (old : Option db.type_union) (w : db.type_union)
    (h : w ≠ .Empty) :
    patch_value old w = some (match old with
                              | some v => patch v w
                              | none => w) := by
  cases w with
  | Empty => exact absurd rfl h
  | Object c => rfl
  | Array c => rfl
  | Element c => rfl

theorem patch_diff_not_both (v w : db.type_union)
    (h : ∀ a b, ¬ (v = .Object a ∧ w = .Object b)) : patch v (diff v w) = w := by
  cases v <;> cases w <;> first | rfl | (exfalso; exact h _ _ ⟨rfl, rfl⟩)

/-- The Object case of the patch-diff law, given the law for the values of the keys
both Objects hold. -/
theorem patch_diff_Object (a b : List (String × db.type_union))
    (hA : unique_keys (.Object a) = true) (hB : unique_keys (.Object b) = true)
    (hN : no_null_value (.Object b) = true)
    (ih : ∀ k v w, (k, w) ∈ b → unique_keys v = true → unique_keys w = true →
      no_null_value w = true → db.NodeObject.compare (patch v (diff v w)) w = true) :
    db.NodeObject.compare (patch (.Object a) (diff (.Object a) (.Object b))) (.Object b)
      = true := by
  obtain ⟨hna, hua⟩ := unique_keys_Object a hA
  obtain ⟨hnb, hub⟩ := unique_keys_Object b hB
  have hnn : no_null_value_children b = true := by simpa [no_null_value] using hN
  have hP := diff_keys_nodup a b hna hnb
  have key : ∀ k, map_find k (patch_children a
      (diff_children a b ++ (a.filter (fun p => (map_find p.1 b).isNone)).map
        (fun p => (p.1, db.type_union.Empty))))
      = (match map_find k b with
         | none => none
         | some w =>
           (match map_find k a with
            | none => some w
            | some v =>
              if db.NodeObject.compare v w then some v else some (patch v (diff v w)))) := by
    intro k
    rw [map_find_patch_children _ a hP hna k, map_find_append,
      map_find_diff_children a b hnb k, map_find_removed]
    cases hb : map_find k b with
    | none =>
      cases ha : map_find k a with
      | none => simp
      | some v => simp [patch_value]
    | some w =>
      have hw := no_null_value_children_mem b k w hnn (mem_of_map_find k w b hb)
      cases ha : map_find k a with
      | none => simp [patch_value_of_ne_Empty _ _ hw.1]
      | some v =>
        by_cases hc : db.NodeObject.compare v w = true
        · simp [hc, ha]
        · simp [hc, patch_value_of_ne_Empty _ _ (diff_ne_Empty v w hw.1)]
  simp only [patch, diff]
  apply compare_Object_of_lookup _ b (patch_children_keys_nodup _ a hna)
  · intro k v hv
    rw [key k] at hv
    cases hb : map_find k b with
    | none => simp [hb] at hv
    | some w =>
      have hmem := mem_of_map_find k w b hb
      have hw := no_null_value_children_mem b k w hnn hmem
      have huw := unique_keys_children_mem b k w hub hmem
      refine ⟨w, rfl, ?_⟩
      cases ha : map_find k a with
      | none =>
        simp only [hb, ha, Option.some.injEq] at hv
        subst hv
        exact compare_refl _ huw
      | some v0 =>
        have huv := unique_keys_children_mem a k v0 hua (mem_of_map_find k v0 a ha)
        by_cases hc : db.NodeObject.compare v0 w = true
        · simp only [hb, ha, hc, if_true, Option.some.injEq] at hv
          subst hv
          exact hc
        · simp only [hb, ha, hc, if_false] at hv
          have hv2 : patch v0 (diff v0 w) = v := Option.some.inj hv
          rw [← hv2]
          exact ih k v0 w hmem huv huw hw.2
  · intro k w hm
    rw [key k, map_find_of_mem_nodup k w b hnb hm]
    cases map_find k a with
    | none => rfl
    | some v =>
      by_cases hc : db.NodeObject.compare v w = true
      · simp [hc]
      · simp [hc]

mutual

theorem patch_diff_compare :
    ∀ (y x : db.type_union), unique_keys x = true → unique_keys y = true →
      no_null_value y = true → db.NodeObject.compare (patch x (diff x y)) y = true
  | .Object b, .Object a, hx, hy, hn =>
    patch_diff_Object a b hx hy hn (fun k v w hm => patch_diff_children b k w hm v)
  | .Object b, .Empty, _, hy, _ => compare_refl _ hy
  | .Object b, .Array _, _, hy, _ => compare_refl _ hy
  | .Object b, .Element _, _, hy, _ => compare_refl _ hy
  | .Empty, x, _, hy, _ => by
    rw [patch_diff_not_both x .Empty (by simp)]
    exact compare_refl _ hy
  | .Array c, x, _, hy, _ => by
    rw [patch_diff_not_both x (.Array c) (by simp)]
    exact compare_refl _ hy
  | .Element c, x, _, hy, _ => by
    rw [patch_diff_not_both x (.Element c) (by simp)]
    exact compare_refl _ hy

theorem patch_diff_children :
    ∀ (b : List (String × db.type_union)) (k : String) (w : db.type_union),
      (k, w) ∈ b → ∀ (v : db.type_union), unique_keys v = true → unique_keys w = true →
      no_null_value w = true → db.NodeObject.compare (patch v (diff v w)) w = true
  | [], _, _, hm => by simp at hm
  | (k1, w1) :: rest, k, w, hm => by
    have ih1 := patch_diff_compare w1
    have ih2 := patch_diff_children rest k w
    intro v hv hw hn
    rcases List.mem_cons.1 hm with h | h
    · have hw1 : w = w1 := (Prod.mk.inj h).2
      subst hw1
      exact ih1 v hv hw hn
    · exact ih2 h v hv hw hn

end
theorem merge_children_keys (a b : List (String × db.type_union)) :
    (merge_children a b).map Prod.fst = a.map Prod.fst := by
  induction a with
  | nil => rfl
  | cons p rest ih =>
    obtain ⟨k, v⟩ := p
    simp [merge_children, ih]

theorem unique_keys_children_append (x y : List (String × db.type_union)) :
    unique_keys_children (x ++ y) = (unique_keys_children x && unique_keys_children y) := by
  induction x with
  | nil => simp [unique_keys_children]
  | cons p rest ih =>
    obtain ⟨k, v⟩ := p
    simp [unique_keys_children, ih, Bool.and_assoc]

theorem unique_keys_list_append (x y : List db.type_union) :
    unique_keys_list (x ++ y) = (unique_keys_list x && unique_keys_list y) := by
  induction x with
  | nil => simp [unique_keys_list]
  | cons p rest ih => simp [unique_keys_list, ih, Bool.and_assoc]

mutual

theorem merge_unique_keys :
    ∀ (x y : db.type_union), unique_keys x = true → unique_keys y = true →
      unique_keys (merge x y) = true
  | .Object a, .Object b, hx, hy => by
    obtain ⟨hna, hua⟩ := unique_keys_Object a hx
    obtain ⟨hnb, hub⟩ := unique_keys_Object b hy
    have h1 := merge_children_unique_keys a b hua hub
    have h2 := unique_keys_children_filter (fun p => (map_find p.1 a).isNone) b hub
    simp only [merge, unique_keys, Bool.and_eq_true, decide_eq_true_eq,
      unique_keys_children_append, h1, h2, and_true]
    rw [List.map_append, List.nodup_append, merge_children_keys]
    refine ⟨hna, ((List.filter_sublist b).map Prod.fst).nodup hnb, ?_⟩
    intro k hk1 hk2
    obtain ⟨p, hp, hpk⟩ := List.mem_map.1 hk2
    have hp2 := (List.mem_filter.1 hp).2
    simp only [Option.isNone_iff_eq_none] at hp2
    rw [hpk] at hp2
    exact ((map_find_eq_none_iff k a).1 hp2) hk1
  | .Array a, .Array b, hx, hy => by
    have h1 : unique_keys_list a = true := by simpa [unique_keys] using hx
    have h2 : unique_keys_list b = true := by simpa [unique_keys] using hy
    simp [merge, unique_keys, unique_keys_list_append, h1, h2]
  | .Object a, .Array b, _, hy => hy
  | .Object a, .Empty, _, hy => hy
  | .Object a, .Element _, _, hy => hy
  | .Array a, .Object b, _, hy => hy
  | .Array a, .Empty, _, hy => hy
  | .Array a, .Element _, _, hy => hy
  | .Empty, y, _, hy => by
    have e : merge .Empty y = y := by cases y <;> rfl
    rw [e]
    exact hy
  | .Element v, y, _, hy => by
    have e : merge (.Element v) y = y := by cases y <;> rfl
    rw [e]
    exact hy

theorem merge_children_unique_keys :
    ∀ (a b : List (String × db.type_union)), unique_keys_children a = true →
      unique_keys_children b = true → unique_keys_children (merge_children a b) = true
  | [], _, _, _ => rfl
  | (k, v) :: rest, b, ha, hb => by
    simp only [unique_keys_children, Bool.and_eq_true] at ha
    have h2 := merge_children_unique_keys rest b ha.2 hb
    cases hf : map_find k b with
    | none => simp [merge_children, hf, unique_keys_children, ha.1, h2]
    | some w =>
      have h1 := merge_unique_keys v w ha.1
        (unique_keys_children_mem b k w hb (mem_of_map_find k w b hf))
      simp [merge_children, hf, unique_keys_children, h1, h2]

end
/-! ### The condition of the patch-diff law cannot be dropped -/

theorem map_find_patch_diff (a b : List (String × db.type_union))
    (hna : (a.map Prod.fst).Nodup) (hnb : (b.map Prod.fst).Nodup) (k : String) :
    map_find k (patch_children a
      (diff_children a b ++ (a.filter (fun p => (map_find p.1 b).isNone)).map
        (fun p => (p.1, db.type_union.Empty))))
      = (match map_find k b with
         | none => none
         | some w =>
           (match map_find k a with
            | none => patch_value none w
            | some v =>
              if db.NodeObject.compare v w then some v
              else patch_value (some v) (diff v w))) := by
  rw [map_find_patch_children _ a (diff_keys_nodup a b hna hnb) hna k, map_find_append,
    map_find_diff_children a b hnb k, map_find_removed]
  cases hb : map_find k b with
  | none =>
    cases ha : map_find k a with
    | none => simp
    | some v => simp [patch_value]
  | some w =>
    cases ha : map_find k a with
    | none => simp
    | some v =>
      by_cases hc : db.NodeObject.compare v w = true
      · simp [hc, ha]
      · simp [hc]

theorem compare_children_mem (c b : List (String × db.type_union))
    (h : compare_children c b = true) (k : String) (v : db.type_union) (hm : (k, v) ∈ c) :
    ∃ w, map_find k b = some w ∧ db.NodeObject.compare v w = true := by
  induction c with
  | nil => simp at hm
  | cons p rest ih =>
    obtain ⟨k1, v1⟩ := p
    simp only [compare_children, Bool.and_eq_true] at h
    rcases List.mem_cons.1 hm with h1 | h1
    · cases h1
      cases hb : map_find k b with
      | none => simp [hb] at h
      | some w =>
        refine ⟨w, rfl, ?_⟩
        simpa [hb] using h.1
    · exact ih h.2 h1

theorem compare_Object_false_of_missing (r b : List (String × db.type_union)) (k : String)
    (w : db.type_union) (hm : (k, w) ∈ b) (hr : map_find k r = none) :
    db.NodeObject.compare (.Object r) (.Object b) = false := by
  cases hc : db.NodeObject.compare (.Object r) (.Object b) with
  | false => rfl
  | true =>
    simp only [db.NodeObject.compare, Bool.and_eq_true, List.all_eq_true] at hc
    have h := hc.2 (k, w) hm
    simp [hr] at h

theorem compare_Object_false_of_differ (r b : List (String × db.type_union)) (k : String)
    (v w : db.type_union) (hr : map_find k r = some v) (hb : map_find k b = some w)
    (hc : db.NodeObject.compare v w = false) :
    db.NodeObject.compare (.Object r) (.Object b) = false := by
  cases h : db.NodeObject.compare (.Object r) (.Object b) with
  | false => rfl
  | true =>
    simp only [db.NodeObject.compare, Bool.and_eq_true] at h
    obtain ⟨w2, hw2, hc2⟩ := compare_children_mem r b h.1 k v (mem_of_map_find k v r hr)
    rw [hb] at hw2
    cases hw2
    rw [hc] at hc2
    cases hc2

theorem exists_null_value (b : List (String × db.type_union))
    (h : no_null_value_children b = false) :
    ∃ k w, (k, w) ∈ b ∧ (w = .Empty ∨ no_null_value w = false) := by
  induction b with
  | nil => simp [no_null_value_children] at h
  | cons p rest ih =>
    obtain ⟨k1, v1⟩ := p
    by_cases h1 : v1 = .Empty
    · exact ⟨k1, v1, List.mem_cons_self _ _, Or.inl h1⟩
    · by_cases h2 : no_null_value v1 = true
      · have h3 : no_null_value_children rest = false := by
          cases v1 with
          | Empty => exact absurd rfl h1
          | Object c => simpa [no_null_value_children, h2] using h
          | Array c => simpa [no_null_value_children, h2] using h
          | Element c => simpa [no_null_value_children, h2] using h
        obtain ⟨k, w, hm, hw⟩ := ih h3
        exact ⟨k, w, List.mem_cons_of_mem _ hm, hw⟩
      · refine ⟨k1, v1, List.mem_cons_self _ _, Or.inr ?_⟩
        simpa using h2

mutual

theorem patch_diff_fails :
    ∀ (y : db.type_union), unique_keys y = true → no_null_value y = false →
      ∃ a, unique_keys (.Object a) = true ∧
        db.NodeObject.compare (.Object a) y = false ∧
        db.NodeObject.compare (patch (.Object a) (diff (.Object a) y)) y = false
  | .Object b, hy, hn => by
    have rec := patch_diff_fails_children b
    obtain ⟨hnb, hub⟩ := unique_keys_Object b hy
    have hnn : no_null_value_children b = false := by simpa [no_null_value] using hn
    obtain ⟨k, w, hm, hw⟩ := exists_null_value b hnn
    have hb : map_find k b = some w := map_find_of_mem_nodup k w b hnb hm
    rcases hw with hw | hw
    · subst hw
      refine ⟨[], rfl, compare_Object_false_of_missing [] b k _ hm rfl, ?_⟩
      simp only [patch, diff]
      apply compare_Object_false_of_missing _ b k _ hm
      rw [map_find_patch_diff [] b (by simp) hnb k, hb]
      rfl
    · obtain ⟨a0, hu0, hc0, hp0⟩ :=
        rec k w hm (unique_keys_children_mem b k w hub hm) hw
      have hne : w ≠ .Empty := by
        intro h
        subst h
        simp [no_null_value] at hw
      have hfa : map_find k [(k, db.type_union.Object a0)] = some (.Object a0) := by
        simp [map_find]
      refine ⟨[(k, .Object a0)], ?_, ?_, ?_⟩
      · simp only [unique_keys, unique_keys_children, Bool.and_eq_true] at hu0 ⊢
        simp [hu0]
      · exact compare_Object_false_of_differ _ b k _ w hfa hb hc0
      · simp only [patch, diff]
        apply compare_Object_false_of_differ _ b k (patch (.Object a0) (diff (.Object a0) w)) w
          _ hb hp0
        rw [map_find_patch_diff [(k, .Object a0)] b (by simp) hnb k, hb, hfa]
        simp [hc0, patch_value_of_ne_Empty _ _ (diff_ne_Empty (.Object a0) w hne)]
  | .Empty, _, hn => by simp [no_null_value] at hn
  | .Array _, _, hn => by simp [no_null_value] at hn
  | .Element _, _, hn => by simp [no_null_value] at hn

theorem patch_diff_fails_children :
    ∀ (b : List (String × db.type_union)) (k : String) (w : db.type_union),
      (k, w) ∈ b → unique_keys w = true → no_null_value w = false →
      ∃ a, unique_keys (.Object a) = true ∧
        db.NodeObject.compare (.Object a) w = false ∧
        db.NodeObject.compare (patch (.Object a) (diff (.Object a) w)) w = false
  | [], _, _, hm => by simp at hm
  | (k1, w1) :: rest, k, w, hm => by
    have ih1 := patch_diff_fails w1
    have ih2 := patch_diff_fails_children rest k w
    intro hu hn
    rcases List.mem_cons.1 hm with h | h
    · have hw1 : w = w1 := (Prod.mk.inj h).2
      subst hw1
      exact ih1 hu hn
    · exact ih2 h hu hn

end
/-- The condition of the amended patch-diff law is needed: for every Object `B` with
unique keys that holds Null under a key, at the top or in an Object nested under keys
of Objects, there is an Object `A` with unique keys for which `patch(A, diff(A, B))`
is not deeply equal to `B`. -/
theorem patch_diff_condition_needed (b : List (String × db.type_union))
    (hB : unique_keys (.Object b) = true) (hN : no_null_value (.Object b) = false) :
    ∃ a, unique_keys (.Object a) = true ∧
      db.NodeObject.compare (patch (.Object a) (diff (.Object a) (.Object b))) (.Object b)
        = false := by
  obtain ⟨a, h1, _, h3⟩ := patch_diff_fails (.Object b) hB hN
  exact ⟨a, h1, h3⟩

/-- C27 fails as stated: for the empty Object `A` and the Object `B` that holds Null
under `"k"`, the diff is the patch that holds Null under `"k"`, the patch removes the
key, and the result, the empty Object, is not deeply equal to `B`.  The same happens
one level down, for `A` with the empty Object under `"x"` and `B` with the Object that
holds Null under `"k"` under `"x"`. -/
theorem C27_counterexample :
    diff (.Object []) (.Object [("k", .Empty)]) = .Object [("k", .Empty)] ∧
    patch (.Object []) (diff (.Object []) (.Object [("k", .Empty)])) = .Object [] ∧
    db.NodeObject.compare
      (patch (.Object []) (diff (.Object []) (.Object [("k", .Empty)])))
      (.Object [("k", .Empty)]) = false ∧
    patch (.Object [("x", .Object [])])
        (diff (.Object [("x", .Object [])]) (.Object [("x", .Object [("k", .Empty)])]))
      = .Object [("x", .Object [])] ∧
    db.NodeObject.compare
      (patch (.Object [("x", .Object [])])
        (diff (.Object [("x", .Object [])]) (.Object [("x", .Object [("k", .Empty)])])))
      (.Object [("x", .Object [("k", .Empty)])]) = false := by
  refine ⟨rfl, rfl, rfl, rfl, rfl⟩

/-- C27 as amended: for all Objects `A` and `B` with unique keys in every Object such
that `B` holds Null under no key, neither at the top nor in an Object nested under
keys of Objects, `patch(A, diff(A, B))` is deeply equal to `B`; what the elements of
an Array of `B` hold is not restricted.  The patch of the spec, `{a: 1, b: 2}` patched
with `{b: null, c: 3}`, gives `{a: 1, c: 3}`, and the diff of an Object with itself is
the empty patch. -/
theorem C27_patch_diff (a b : List (String × type_union))
    (hA : unique_keys (.Object a) = true) (hB : unique_keys (.Object b) = true)
    (hN : no_null_value (.Object b) = true) :
    db.NodeObject.compare (patch (.Object a) (diff (.Object a) (.Object b))) (.Object b)
      = true ∧
    patch (.Object [("a", .Element (.Int 1)), ("b", .Element (.Int 2))])
        (.Object [("b", .Empty), ("c", .Element (.Int 3))])
      = .Object [("a", .Element (.Int 1)), ("c", .Element (.Int 3))] ∧
    diff (.Object [("a", .Element (.Int 1)), ("b", .Element (.Int 2))])
        (.Object [("a", .Element (.Int 1)), ("b", .Element (.Int 2))])
      = .Object [] :=
  ⟨patch_diff_compare (.Object b) (.Object a) hA hB hN, rfl, rfl⟩

/-- C27 as amended, at two Objects that share a nested Object, differ in a scalar and
in an Array, and each hold a key the other lacks; the Array of `B` has an element that
holds Null under a key. -/
theorem C27_patch_diff_witness :
    unique_keys (.Object [("a", .Element (.Int 1)), ("o", .Object [("x", .Element (.Int 1))]),
      ("gone", .Array []), ("x", .Array [.Element (.Int 1)])]) = true ∧
    unique_keys (.Object [("o", .Object [("y", .Element (.Int 2))]),
      ("a", .Element (.Int 5)), ("new", .Element (.String "s")),
      ("x", .Array [.Object [("k", .Empty)]])]) = true ∧
    no_null_value (.Object [("o", .Object [("y", .Element (.Int 2))]),
      ("a", .Element (.Int 5)), ("new", .Element (.String "s")),
      ("x", .Array [.Object [("k", .Empty)]])]) = true ∧
    db.NodeObject.compare
      (patch
        (.Object [("a", .Element (.Int 1)), ("o", .Object [("x", .Element (.Int 1))]),
          ("gone", .Array []), ("x", .Array [.Element (.Int 1)])])
        (diff
          (.Object [("a", .Element (.Int 1)), ("o", .Object [("x", .Element (.Int 1))]),
            ("gone", .Array []), ("x", .Array [.Element (.Int 1)])])
          (.Object [("o", .Object [("y", .Element (.Int 2))]),
            ("a", .Element (.Int 5)), ("new", .Element (.String "s")),
            ("x", .Array [.Object [("k", .Empty)]])])))
      (.Object [("o", .Object [("y", .Element (.Int 2))]),
        ("a", .Element (.Int 5)), ("new", .Element (.String "s")),
        ("x", .Array [.Object [("k", .Empty)]])]) = true :=
  ⟨by decide, by decide, by decide,
   (C27_patch_diff
      [("a", .Element (.Int 1)), ("o", .Object [("x", .Element (.Int 1))]), ("gone", .Array []),
        ("x", .Array [.Element (.Int 1)])]
      [("o", .Object [("y", .Element (.Int 2))]), ("a", .Element (.Int 5)),
        ("new", .Element (.String "s")), ("x", .Array [.Object [("k", .Empty)]])]
      (by decide) (by decide) (by decide)).1⟩

/-- C28 fails as stated: for the Objects `A` and `B` that hold the Arrays `[1]` and
`[2]` under `"x"`, `merge(A, B)` holds `[1, 2]` and `merge(merge(A, B), B)` holds
`[1, 2, 2]`; the two are not deeply equal. -/
theorem C28_counterexample :
    merge (.Object [("x", .Array [.Element (.Int 1)])])
        (.Object [("x", .Array [.Element (.Int 2)])])
      = .Object [("x", .Array [.Element (.Int 1), .Element (.Int 2)])] ∧
    merge (merge (.Object [("x", .Array [.Element (.Int 1)])])
        (.Object [("x", .Array [.Element (.Int 2)])]))
        (.Object [("x", .Array [.Element (.Int 2)])])
      = .Object [("x", .Array [.Element (.Int 1), .Element (.Int 2), .Element (.Int 2)])] ∧
    db.NodeObject.compare
      (merge (merge (.Object [("x", .Array [.Element (.Int 1)])])
        (.Object [("x", .Array [.Element (.Int 2)])]))
        (.Object [("x", .Array [.Element (.Int 2)])]))
      (merge (.Object [("x", .Array [.Element (.Int 1)])])
        (.Object [("x", .Array [.Element (.Int 2)])])) = false := by
  refine ⟨rfl, rfl, rfl⟩

/-- C28 as amended: for all Objects `A` and `B` with unique keys in every Object such
that every Array in `B`, at any depth, is without elements, `merge(merge(A, B), B)` is
`merge(A, B)`, and the two are deeply equal. -/
theorem C28_merge_idempotent (a b : List (String × type_union))
    (hA : unique_keys (.Object a) = true) (hB : unique_keys (.Object b) = true)
    (hN : no_array_element (.Object b) = true) :
    merge (merge (.Object a) (.Object b)) (.Object b) = merge (.Object a) (.Object b) ∧
    db.NodeObject.compare (merge (merge (.Object a) (.Object b)) (.Object b))
      (merge (.Object a) (.Object b)) = true := by
  have h := merge_idem (.Object a) (.Object b) hB hN
  refine ⟨h, ?_⟩
  rw [h]
  exact compare_refl _ (merge_unique_keys _ _ hA hB)

/-- C28 as amended, at two Objects that share a nested Object and a scalar. -/
theorem C28_merge_idempotent_witness :
    unique_keys (.Object [("a", .Element (.Int 1)), ("o", .Object [("x", .Array [.Empty])])])
      = true ∧
    unique_keys (.Object [("o", .Object [("y", .Element (.Int 2)), ("z", .Array [])]),
      ("a", .Element (.Int 5))]) = true ∧
    no_array_element (.Object [("o", .Object [("y", .Element (.Int 2)), ("z", .Array [])]),
      ("a", .Element (.Int 5))]) = true ∧
    merge
      (merge (.Object [("a", .Element (.Int 1)), ("o", .Object [("x", .Array [.Empty])])])
        (.Object [("o", .Object [("y", .Element (.Int 2)), ("z", .Array [])]),
          ("a", .Element (.Int 5))]))
      (.Object [("o", .Object [("y", .Element (.Int 2)), ("z", .Array [])]),
        ("a", .Element (.Int 5))])
    = merge (.Object [("a", .Element (.Int 1)), ("o", .Object [("x", .Array [.Empty])])])
        (.Object [("o", .Object [("y", .Element (.Int 2)), ("z", .Array [])]),
          ("a", .Element (.Int 5))]) :=
  ⟨by decide, by decide, by decide,
   (C28_merge_idempotent
      [("a", .Element (.Int 1)), ("o", .Object [("x", .Array [.Empty])])]
      [("o", .Object [("y", .Element (.Int 2)), ("z", .Array [])]), ("a", .Element (.Int 5))]
      (by decide) (by decide) (by decide)).1⟩


/-! ### Name, parent and path of a node -/

theorem path_eq_this_path (n : Node) : HierarchicalTree.path n = n.this.path := by
  obtain ⟨p, name, d⟩ := n
  cases p <;> rfl

theorem path_construct_child (r : Node) (n : String) :
    HierarchicalTree.path (HierarchicalTree.construct (some r.this) n)
      = HierarchicalTree.path r ++ "/" ++ n := by
  rw [path_eq_this_path r]
  rfl

theorem path_descendant (r : Node) (names : List String) :
    HierarchicalTree.path (HierarchicalTree.descendant r names)
      = names.foldl (fun acc n => acc ++ "/" ++ n) (HierarchicalTree.path r) := by
  induction names generalizing r with
  | nil => rfl
  | cons n rest ih =>
    have h : HierarchicalTree.descendant r (n :: rest)
        = HierarchicalTree.descendant (HierarchicalTree.construct (some r.this) n) rest := rfl
    rw [h, ih, path_construct_child]
    rfl

theorem intercalate_go_eq_foldl (acc s : String) (names : List String) :
    String.intercalate.go acc s names = names.foldl (fun a n => a ++ s ++ n) acc := by
  induction names generalizing acc with
  | nil => rfl
  | cons n rest ih => simp [String.intercalate.go, ih]

/-- C31: `path()` of a root (a node without a parent) is the name of the root, and
`path()` of the node reached from a root named `n0` through descendants named
`n1`, ..., `nk` is `n0 + "/" + n1 + ... + "/" + nk`, the names from the root down
joined by `"/"`.  `path()` is a `const` member that reads `m_parent_` and `m_name_`
alone: its value is a string and no node is changed, and the value does not depend
on what the nodes hold. -/
theorem C31_path_walks_parents (n0 : String) (d d2 : type_union) (names : List String) :
    HierarchicalTree.is_root ⟨none, n0, d⟩ = true ∧
    HierarchicalTree.path ⟨none, n0, d⟩ = n0 ∧
    HierarchicalTree.path (HierarchicalTree.descendant ⟨none, n0, d⟩ names)
      = names.foldl (fun acc n => acc ++ "/" ++ n) n0 ∧
    HierarchicalTree.path (HierarchicalTree.descendant ⟨none, n0, d⟩ names)
      = "/".intercalate (n0 :: names) ∧
    HierarchicalTree.name (HierarchicalTree.descendant ⟨none, n0, d⟩ names)
      = (n0 :: names).getLast (List.cons_ne_nil n0 names) ∧
    HierarchicalTree.path (HierarchicalTree.descendant ⟨none, n0, d2⟩ names)
      = HierarchicalTree.path (HierarchicalTree.descendant ⟨none, n0, d⟩ names) := by
  have hp := path_descendant ⟨none, n0, d⟩ names
  have hp2 := path_descendant ⟨none, n0, d2⟩ names
  have h0 : HierarchicalTree.path ⟨none, n0, d⟩ = n0 := rfl
  have h02 : HierarchicalTree.path ⟨none, n0, d2⟩ = n0 := rfl
  rw [h0] at hp
  rw [h02] at hp2
  refine ⟨rfl, rfl, hp, ?_, ?_, ?_⟩
  · rw [hp]
    show _ = String.intercalate.go n0 "/" names
    rw [intercalate_go_eq_foldl]
  · generalize hr : (⟨none, n0, d⟩ : Node) = r
    have hn : HierarchicalTree.name r = n0 := by rw [← hr]; rfl
    clear hr hp hp2 h0 h02
    induction names generalizing r n0 with
    | nil => simpa using hn
    | cons n rest ih =>
      have h : HierarchicalTree.descendant r (n :: rest)
          = HierarchicalTree.descendant (HierarchicalTree.construct (some r.this) n) rest := rfl
      rw [h, List.getLast_cons (List.cons_ne_nil n rest)]
      exact ih n _ rfl
  · rw [hp, hp2]


/-! ### An attribute and a child of the same name -/

theorem ne_marker_append (k : String) : k ≠ "@" ++ k := by
  intro h
  have h1 := congrArg String.length h
  rw [String.length_append] at h1
  have h2 : "@".length = 1 := rfl
  omega

theorem set_single_at_key_fresh (k : String) (b : single_t)
    (m : List (String × entry_Memory)) (h : map_find k m = some create) :
    set_single_at (some (.key k)) b (.Object m)
      = (.ok (), .Object (map_assign k (.Single b) m)) := by
  simp [set_single_at, h, set_single, create, type, EntryType.index]

/-- C32: on a fresh entry, for every name `k`, attribute value `a` and scalar `b`:
`set_attribute(k, a)` succeeds, `insert(k)` then gives a handle to a child through
which `set_single(b)` succeeds, and on the entry so reached `get_attribute(k)` returns
`a` and `find(k)` gives a handle to a child holding `b`.  The same holds when the
child is inserted and set first and the attribute is set after it.  The attribute is
stored under `'@' + k` and the child under `k`, two different keys. -/
theorem C32_attribute_and_child_apart (k : String) (a b : single_t) :
    (set_attribute_raw k a create).1 = .ok () ∧
    (set_single_at (EntryImplement.insert k (set_attribute_raw k a create).2).1 b
        (EntryImplement.insert k (set_attribute_raw k a create).2).2).1 = .ok () ∧
    get_attribute_raw k
      (set_single_at (EntryImplement.insert k (set_attribute_raw k a create).2).1 b
        (EntryImplement.insert k (set_attribute_raw k a create).2).2).2 = .ok a ∧
    deref
      (set_single_at (EntryImplement.insert k (set_attribute_raw k a create).2).1 b
        (EntryImplement.insert k (set_attribute_raw k a create).2).2).2
      (find k
        (set_single_at (EntryImplement.insert k (set_attribute_raw k a create).2).1 b
          (EntryImplement.insert k (set_attribute_raw k a create).2).2).2)
      = some (.Single b) ∧
    (set_attribute_raw k a
      (set_single_at (EntryImplement.insert k create).1 b
        (EntryImplement.insert k create).2).2).1 = .ok () ∧
    get_attribute_raw k
      (set_attribute_raw k a
        (set_single_at (EntryImplement.insert k create).1 b
          (EntryImplement.insert k create).2).2).2 = .ok a ∧
    deref
      (set_attribute_raw k a
        (set_single_at (EntryImplement.insert k create).1 b
          (EntryImplement.insert k create).2).2).2
      (find k
        (set_attribute_raw k a
          (set_single_at (EntryImplement.insert k create).1 b
            (EntryImplement.insert k create).2).2).2)
      = some (.Single b) := by
  have hne : k ≠ "@" ++ k := ne_marker_append k
  have hne2 : "@" ++ k ≠ k := fun h => hne h.symm
  -- the attribute first
  have h1 : set_attribute_raw k a create = (.ok (), .Object [("@" ++ k, .Single a)]) :=
    set_attribute_raw_Null k a
  have hf1 : map_find k [("@" ++ k, entry_Memory.Single a)] = none := by
    simp [map_find, hne]
  have hf2 : map_find k (map_emplace k create [("@" ++ k, entry_Memory.Single a)])
      = some create := map_find_emplace_absent _ _ _ hf1
  have h3 : set_single_at (EntryImplement.insert k (set_attribute_raw k a create).2).1 b
        (EntryImplement.insert k (set_attribute_raw k a create).2).2
      = (.ok (), .Object (map_assign k (.Single b)
          (map_emplace k create [("@" ++ k, .Single a)]))) := by
    rw [h1, insert_Object_eq]
    exact set_single_at_key_fresh k b _ hf2
  have hk1 : map_find k (map_assign k (entry_Memory.Single b)
      (map_emplace k create [("@" ++ k, entry_Memory.Single a)])) = some (.Single b) := by
    rw [map_find_assign_self, hf2]
    rfl
  have ha1 : map_find ("@" ++ k) (map_assign k (entry_Memory.Single b)
      (map_emplace k create [("@" ++ k, entry_Memory.Single a)])) = some (.Single a) := by
    rw [map_find_assign_other _ _ _ _ hne2, map_find_emplace_other _ _ _ _ hne2]
    simp [map_find]
  -- the child first
  have h4 : set_single_at (EntryImplement.insert k create).1 b (EntryImplement.insert k create).2
      = (.ok (), .Object [(k, .Single b)]) := by
    have hc : create = entry_Memory.Null := rfl
    rw [hc, insert_Null_eq]
    simp [set_single_at, map_find, set_single, create, type, EntryType.index, map_assign]
  have hf5 : map_find ("@" ++ k) [(k, entry_Memory.Single b)] = none := by
    simp [map_find, hne2]
  have h5 : set_attribute_raw k a (.Object [(k, .Single b)])
      = (.ok (), .Object (map_assign ("@" ++ k) (.Single a)
          (map_emplace ("@" ++ k) create [(k, .Single b)]))) := by
    apply set_attribute_raw_Object
    intro x hx
    rw [hf5] at hx
    cases hx
  have hk2 : map_find k (map_assign ("@" ++ k) (entry_Memory.Single a)
      (map_emplace ("@" ++ k) create [(k, entry_Memory.Single b)])) = some (.Single b) := by
    rw [map_find_assign_other _ _ _ _ hne, map_find_emplace_other _ _ _ _ hne]
    simp [map_find]
  have ha2 : map_find ("@" ++ k) (map_assign ("@" ++ k) (entry_Memory.Single a)
      (map_emplace ("@" ++ k) create [(k, entry_Memory.Single b)])) = some (.Single a) := by
    rw [map_find_assign_self, map_find_emplace_absent _ _ _ hf5]
    rfl
  rw [h3, h4, h5, h1]
  refine ⟨rfl, rfl, ?_, ?_, rfl, ?_, ?_⟩
  · rw [get_attribute_raw_Object, ha1]
    rfl
  · rw [find_Object_eq, hk1, deref_key_Object, hk1]
  · rw [get_attribute_raw_Object, ha2]
    rfl
  · rw [find_Object_eq, hk2, deref_key_Object, hk2]


/-! ### `has_attribute` and `remove_attribute` -/

theorem has_attribute_iff (name : String) (e : Entry) :
    has_attribute name e = true ↔ deref e (some (.key ("@" ++ name))) = none := by
  cases e with
  | Object m =>
    unfold has_attribute
    rw [find_Object_eq, deref_key_Object]
    cases map_find ("@" ++ name) m <;> simp
  | _ => simp [has_attribute, find, deref]

/-- C33 (the code at the failing inputs): for every name and value, `has_attribute(name)`
returns true on a fresh entry; right after `set_attribute(name, v)`, where
`get_attribute(name)` returns `v`, it returns false; after `remove_attribute(name)`,
where `get_attribute(name)` throws `out_of_range`, it returns true again.  On every
entry it returns true exactly when the entry is not an Object holding an entry under
`'@' + name`. -/
theorem C33_has_attribute_is_negated (name : String) (v : single_t) :
    has_attribute name create = true ∧
    has_attribute name (set_attribute_raw name v create).2 = false ∧
    get_attribute_raw name (set_attribute_raw name v create).2 = .ok v ∧
    (remove_attribute name (set_attribute_raw name v create).2).1 = .ok () ∧
    has_attribute name (remove_attribute name (set_attribute_raw name v create).2).2 = true ∧
    get_attribute_raw name (remove_attribute name (set_attribute_raw name v create).2).2
      = .error (.out_of_range ("Can not find attribute '" ++ name ++ "'")) ∧
    (∀ e : Entry, has_attribute name e = true ↔
      deref e (some (.key ("@" ++ name))) = none) := by
  have h1 : set_attribute_raw name v create = (.ok (), .Object [("@" ++ name, .Single v)]) :=
    set_attribute_raw_Null name v
  have h2 : remove_attribute name (.Object [("@" ++ name, .Single v)])
      = (.ok (), .Object []) := by
    simp [remove_attribute, erase, map_find, map_erase, Except.map]
  rw [h1]
  simp only [h2]
  refine ⟨rfl, ?_, ?_, trivial, rfl, rfl, has_attribute_iff name⟩
  · simp [has_attribute, find_Object_eq, map_find]
  · rw [get_attribute_raw_Object]
    simp [map_find, get_single]


/-! ### Copies of an iterator that owns no proxy -/

/-- C34 (the code at the failing inputs): whatever `copy()` of the proxy class does,
the copy constructor applied to a default-constructed iterator, or to an iterator
built from an element pointer, calls `copy()` through the null `m_proxy_`, which is
undefined behaviour; `operator=` from such an iterator does the same and leaves the
iterator assigned to as it was.  This is so for the handle that `insert("a")` returns
on a fresh entry and for the null handle that `find("a")` returns there.  `next()` on
the same iterators is defined: it tests `m_proxy_ == nullptr` and gives the null
pointer. -/
theorem C34_copy_of_proxyless_iterator {P A : Type} (pcopy : P → P)
    (pnext : P → Except Exn (Option A) × P) (p : Option A) (self : Iterator P A) :
    Iterator.copy_construct pcopy (Iterator.default_construct : Iterator P A)
      = .error (.undefined_behaviour "null proxy") ∧
    Iterator.copy_construct pcopy (Iterator.pointer_construct p : Iterator P A)
      = .error (.undefined_behaviour "null proxy") ∧
    Iterator.assign pcopy self Iterator.default_construct
      = (.error (.undefined_behaviour "null proxy"), self) ∧
    Iterator.assign pcopy self (Iterator.pointer_construct p)
      = (.error (.undefined_behaviour "null proxy"), self) ∧
    Iterator.copy_construct IteratorProxy.copy
        (Iterator.pointer_construct (EntryImplement.insert "a" create).1 :
          Iterator IteratorProxy Slot)
      = .error (.undefined_behaviour "null proxy") ∧
    Iterator.copy_construct IteratorProxy.copy
        (Iterator.pointer_construct (find "a" create) : Iterator IteratorProxy Slot)
      = .error (.undefined_behaviour "null proxy") ∧
    Iterator.next pnext (Iterator.pointer_construct p) = (.ok none, ⟨none, none⟩) :=
  ⟨rfl, rfl, rfl, rfl, rfl, rfl, rfl⟩


/-! ### `pop_back` on an array without elements -/

/-- C35 (the code at the failing input): on an Array with no elements `pop_back()`
evaluates `m.rbegin()->swap(res)` and `m.pop_back()` on the empty vector, which is
undefined behaviour, and no Null entry is returned; an array emptied by `pop_back()`
after one `push_back()` is such an array.  On an entry of every other tag `pop_back()`
returns a Null entry and leaves the entry as it is. -/
theorem C35_pop_back_of_empty_array (v : single_t) (t : tensor_t) (b : block_t)
    (m : List (String × entry_Memory)) :
    pop_back (.Array [])
      = (.error (.undefined_behaviour "rbegin of an empty vector"), .Array []) ∧
    (pop_back (push_back create).2) = (.ok create, .Array []) ∧
    (pop_back (pop_back (push_back create).2).2).1
      = .error (.undefined_behaviour "rbegin of an empty vector") ∧
    pop_back .Null = (.ok .Null, .Null) ∧
    pop_back (.Single v) = (.ok .Null, .Single v) ∧
    pop_back (.Tensor t) = (.ok .Null, .Tensor t) ∧
    pop_back (.Block b) = (.ok .Null, .Block b) ∧
    pop_back (.Object m) = (.ok .Null, .Object m) :=
  ⟨rfl, rfl, rfl, rfl, rfl, rfl, rfl, rfl⟩


/-! ### Copies, assignment and swap of nodes -/

/-- C36: the copy constructor yields a node with the tag and the value of the node
copied, with the empty name and no parent, so that `is_root()` holds and `path()` is
the empty string.  `operator=` gives the node assigned to the value of the other
node, and `swap` exchanges the values of the two nodes; `name()`, `parent()` and
`path()` of each node are after the call what they were before it. -/
theorem C36_identity_is_not_transferred (self other : Node) :
    (HierarchicalTree.copy_construct other).m_data_ = other.m_data_ ∧
    HierarchicalTree.type (HierarchicalTree.copy_construct other).m_data_
      = HierarchicalTree.type other.m_data_ ∧
    HierarchicalTree.name (HierarchicalTree.copy_construct other) = "" ∧
    HierarchicalTree.parent (HierarchicalTree.copy_construct other) = none ∧
    HierarchicalTree.is_root (HierarchicalTree.copy_construct other) = true ∧
    HierarchicalTree.path (HierarchicalTree.copy_construct other) = "" ∧
    (HierarchicalTree.assign_node self other).m_data_ = other.m_data_ ∧
    HierarchicalTree.name (HierarchicalTree.assign_node self other)
      = HierarchicalTree.name self ∧
    HierarchicalTree.parent (HierarchicalTree.assign_node self other)
      = HierarchicalTree.parent self ∧
    HierarchicalTree.path (HierarchicalTree.assign_node self other)
      = HierarchicalTree.path self ∧
    (HierarchicalTree.swap self other).1.m_data_ = other.m_data_ ∧
    (HierarchicalTree.swap self other).2.m_data_ = self.m_data_ ∧
    HierarchicalTree.name (HierarchicalTree.swap self other).1 = HierarchicalTree.name self ∧
    HierarchicalTree.parent (HierarchicalTree.swap self other).1
      = HierarchicalTree.parent self ∧
    HierarchicalTree.path (HierarchicalTree.swap self other).1 = HierarchicalTree.path self ∧
    HierarchicalTree.name (HierarchicalTree.swap self other).2 = HierarchicalTree.name other ∧
    HierarchicalTree.parent (HierarchicalTree.swap self other).2
      = HierarchicalTree.parent other ∧
    HierarchicalTree.path (HierarchicalTree.swap self other).2
      = HierarchicalTree.path other :=
  ⟨rfl, rfl, rfl, rfl, rfl, rfl, rfl, rfl, rfl, rfl, rfl, rfl, rfl, rfl, rfl, rfl, rfl, rfl⟩

end sp
